import Mathlib

/-!
Verification of the ralph-tui session persistence module
(`src/session/persistence.ts`) and of the Qwen agent plugin's JSON
stream extraction (`src/plugins/agents/builtin/qwen-cli.ts`), as a
shallow embedding in Lean 4.

Modelling conventions:
* ISO-8601 timestamps produced by `new Date().toISOString()` are
  modelled as natural numbers; every operation that reads the clock
  takes the current time as an explicit `now : Nat` argument.
* JSON values are modelled by the inductive `Json` tree;
  `JSON.stringify`/`JSON.parse` of a stored session are modelled by
  the structure-preserving codecs `sessionToJson`/`sessionFromJson`.
* The file system is modelled as a map from paths to stored `Json`
  values; `path.join(cwd, f)` is modelled as `cwd ++ "/" ++ f`.
* For the character-level JSON extraction of the Qwen plugin,
  strings are modelled as `List Char`; the printer `printChars`
  models compact `JSON.stringify` output (escaping `"` and `\`),
  and `Json.parse` models `JSON.parse` on such compact documents.
-/

namespace RalphTui

/-! ## JSON value trees -/

mutual

/-- A JSON value, as produced by `JSON.parse`. -/
inductive Json where
  | null : Json
  | bool (b : Bool) : Json
  | num (n : Int) : Json
  | str (s : String) : Json
  | arr (items : JsonList) : Json
  | obj (fields : JsonFields) : Json
  deriving DecidableEq

/-- A list of JSON values (elements of a JSON array). -/
inductive JsonList where
  | nil : JsonList
  | cons (hd : Json) (tl : JsonList) : JsonList
  deriving DecidableEq

/-- The fields of a JSON object, in insertion order. -/
inductive JsonFields where
  | nil : JsonFields
  | cons (key : String) (val : Json) (tl : JsonFields) : JsonFields
  deriving DecidableEq

end

/-- Lookup of a key among the fields of a JSON object. -/
def fieldLookup (k : String) : JsonFields → Option Json
  | .nil => none
  | .cons k2 v tl => if k2 = k then some v else fieldLookup k tl

/-! ## Session data model (from `src/session/persistence.ts`) -/

/-- Session status (`SessionStatus` of `src/session/types.ts`, as used
by `isSessionResumable` and the session mutators). -/
inductive SessionStatus where
  | running | paused | interrupted | completed | failed
  deriving DecidableEq

/-- Tracker task status (`TrackerTaskStatus`). -/
inductive TrackerTaskStatus where
  | pending | in_progress | completed | blocked | failed
  deriving DecidableEq

/-- Status of one iteration (`IterationResult['status']`). -/
inductive IterStatus where
  | completed | failed | interrupted | skipped
  deriving DecidableEq

/-- Task status snapshot for persistence (`TaskStatusSnapshot`). -/
structure TaskStatusSnapshot where
  id : String
  title : String
  status : TrackerTaskStatus
  completedInSession : Bool
  deriving DecidableEq

/-- Tracker state for persistence (`TrackerStateSnapshot`). -/
structure TrackerStateSnapshot where
  plugin : String
  epicId : Option String
  prdPath : Option String
  totalTasks : Nat
  tasks : List TaskStatusSnapshot
  deriving DecidableEq

/-- Persisted iteration result (`PersistedIterationResult`). -/
structure PersistedIterationResult where
  iteration : Nat
  status : IterStatus
  taskId : String
  taskTitle : String
  taskCompleted : Bool
  durationMs : Nat
  error : Option String
  startedAt : Nat
  endedAt : Nat
  deriving DecidableEq

/-- Persisted session state (`PersistedSessionState`). -/
structure PersistedSessionState where
  version : Nat
  sessionId : String
  status : SessionStatus
  startedAt : Nat
  updatedAt : Nat
  pausedAt : Option Nat
  currentIteration : Nat
  maxIterations : Nat
  tasksCompleted : Nat
  isPaused : Bool
  agentPlugin : String
  model : Option String
  trackerState : TrackerStateSnapshot
  iterations : List PersistedIterationResult
  skippedTaskIds : List String
  cwd : String
  deriving DecidableEq

/-- A tracker task, with the fields the session module reads
(`TrackerTask` of the tracker plugin interface). -/
structure TrackerTask where
  id : String
  title : String
  status : TrackerTaskStatus
  deriving DecidableEq

/-- Result of one engine iteration, with the fields the session module
reads (`IterationResult` of `src/engine/types.ts`). -/
structure IterationResult where
  iteration : Nat
  status : IterStatus
  task : TrackerTask
  taskCompleted : Bool
  durationMs : Nat
  error : Option String
  startedAt : Nat
  endedAt : Nat
  deriving DecidableEq

/-- Session file name in project root (`SESSION_FILE`). -/
def SESSION_FILE : String := ".ralph-tui-session.json"

/-- Path of the session file (`getSessionFilePath`). -/
def getSessionFilePath (cwd : String) : String := cwd ++ "/" ++ SESSION_FILE

/-- Options of `createPersistedSession`. -/
structure CreateSessionOptions where
  sessionId : String
  agentPlugin : String
  model : Option String
  trackerPlugin : String
  epicId : Option String
  prdPath : Option String
  maxIterations : Nat
  tasks : List TrackerTask
  cwd : String

/-- Create a new persisted session state (`createPersistedSession`);
`now` is the value of `new Date().toISOString()`. -/
def createPersistedSession (options : CreateSessionOptions) (now : Nat) :
    PersistedSessionState where
  version := 1
  sessionId := options.sessionId
  status := .running
  startedAt := now
  updatedAt := now
  pausedAt := none
  currentIteration := 0
  maxIterations := options.maxIterations
  tasksCompleted := 0
  isPaused := false
  agentPlugin := options.agentPlugin
  model := options.model
  trackerState :=
    { plugin := options.trackerPlugin
      epicId := options.epicId
      prdPath := options.prdPath
      totalTasks := options.tasks.length
      tasks := options.tasks.map fun task =>
        { id := task.id
          title := task.title
          status := task.status
          completedInSession := false } }
  iterations := []
  skippedTaskIds := []
  cwd := options.cwd

/-- The iteration record appended by `updateSessionAfterIteration`. -/
def iterationRecord (result : IterationResult) : PersistedIterationResult where
  iteration := result.iteration
  status := result.status
  taskId := result.task.id
  taskTitle := result.task.title
  taskCompleted := result.taskCompleted
  durationMs := result.durationMs
  error := result.error
  startedAt := result.startedAt
  endedAt := result.endedAt

/-- Per-task snapshot update of `updateSessionAfterIteration`: a task
whose id matches a completed result is marked completed. -/
def markTask (result : IterationResult) (task : TaskStatusSnapshot) :
    TaskStatusSnapshot :=
  if task.id = result.task.id ∧ result.taskCompleted = true then
    { task with status := .completed, completedInSession := true }
  else task

/-- Update session state after an iteration completes
(`updateSessionAfterIteration`). -/
def updateSessionAfterIteration (state : PersistedSessionState)
    (result : IterationResult) : PersistedSessionState :=
  { state with
    currentIteration := result.iteration
    tasksCompleted :=
      if result.taskCompleted then state.tasksCompleted + 1
      else state.tasksCompleted
    trackerState :=
      { state.trackerState with
        tasks := state.trackerState.tasks.map (markTask result) }
    iterations := state.iterations ++ [iterationRecord result] }

/-- Mark session as paused (`pauseSession`). -/
def pauseSession (state : PersistedSessionState) (now : Nat) :
    PersistedSessionState :=
  { state with status := .paused, isPaused := true, pausedAt := some now }

/-- Mark session as resumed (`resumePersistedSession`). -/
def resumePersistedSession (state : PersistedSessionState) :
    PersistedSessionState :=
  { state with status := .running, isPaused := false, pausedAt := none }

/-- Mark session as completed (`completeSession`). -/
def completeSession (state : PersistedSessionState) : PersistedSessionState :=
  { state with status := .completed, isPaused := false }

/-- Mark session as failed (`failSession`); the error argument is unused
by the source. -/
def failSession (state : PersistedSessionState) (_error : Option String) :
    PersistedSessionState :=
  { state with status := .failed, isPaused := false }

/-- Add a skipped task ID with deduplication (`addSkippedTask`). -/
def addSkippedTask (state : PersistedSessionState) (taskId : String) :
    PersistedSessionState :=
  if state.skippedTaskIds.contains taskId then state
  else { state with skippedTaskIds := state.skippedTaskIds ++ [taskId] }

/-- Check if a session is resumable (`isSessionResumable`). -/
def isSessionResumable (state : PersistedSessionState) : Bool :=
  state.status == .paused || state.status == .running ||
    state.status == .interrupted

/-! ## JSON codec for the persisted session

`JSON.stringify` serializes the session record field by field, omitting
`undefined` optional fields; `JSON.parse` restores the record.  The
codecs below model this at the level of `Json` trees. -/

/-- String form of a session status, as serialized. -/
def SessionStatus.toString : SessionStatus → String
  | .running => "running"
  | .paused => "paused"
  | .interrupted => "interrupted"
  | .completed => "completed"
  | .failed => "failed"

/-- Parse a session status string. -/
def SessionStatus.fromString : String → Option SessionStatus
  | "running" => some .running
  | "paused" => some .paused
  | "interrupted" => some .interrupted
  | "completed" => some .completed
  | "failed" => some .failed
  | _ => none

/-- String form of a tracker task status. -/
def TrackerTaskStatus.toString : TrackerTaskStatus → String
  | .pending => "pending"
  | .in_progress => "in_progress"
  | .completed => "completed"
  | .blocked => "blocked"
  | .failed => "failed"

/-- Parse a tracker task status string. -/
def TrackerTaskStatus.fromString : String → Option TrackerTaskStatus
  | "pending" => some .pending
  | "in_progress" => some .in_progress
  | "completed" => some .completed
  | "blocked" => some .blocked
  | "failed" => some .failed
  | _ => none

/-- String form of an iteration status. -/
def IterStatus.toString : IterStatus → String
  | .completed => "completed"
  | .failed => "failed"
  | .interrupted => "interrupted"
  | .skipped => "skipped"

/-- Parse an iteration status string. -/
def IterStatus.fromString : String → Option IterStatus
  | "completed" => some .completed
  | "failed" => some .failed
  | "interrupted" => some .interrupted
  | "skipped" => some .skipped
  | _ => none

/-- Prepend a field that is present in the serialized object only when
the optional value is defined (`JSON.stringify` omits `undefined`). -/
def optField (k : String) (v : Option Json) (rest : JsonFields) : JsonFields :=
  match v with
  | none => rest
  | some j => .cons k j rest

/-- Read a JSON number as a natural number. -/
def Json.asNat : Json → Option Nat
  | .num n => if n < 0 then none else some n.toNat
  | _ => none

/-- Read a JSON string. -/
def Json.asStr : Json → Option String
  | .str s => some s
  | _ => none

/-- Read a JSON boolean. -/
def Json.asBool : Json → Option Bool
  | .bool b => some b
  | _ => none

/-- Read an optional field of an object: an absent key decodes to
`none`, a present key must decode with `f`. -/
def optFieldGet {α : Type} (f : Json → Option α) (k : String)
    (fs : JsonFields) : Option (Option α) :=
  match fieldLookup k fs with
  | none => some none
  | some j => (f j).map some

/-- Turn a Lean list into a JSON array value list. -/
def encodeList {α : Type} (f : α → Json) : List α → JsonList
  | [] => .nil
  | a :: tl => .cons (f a) (encodeList f tl)

/-- Decode every element of a JSON array value list. -/
def decodeList {α : Type} (f : Json → Option α) : JsonList → Option (List α)
  | .nil => some []
  | .cons v tl => (f v).bind fun a => (decodeList f tl).map (a :: ·)

/-- Serialized form of a task status snapshot. -/
def taskSnapshotToJson (t : TaskStatusSnapshot) : Json :=
  .obj (.cons "id" (.str t.id)
    (.cons "title" (.str t.title)
      (.cons "status" (.str t.status.toString)
        (.cons "completedInSession" (.bool t.completedInSession) .nil))))

/-- Parse a task status snapshot. -/
def taskSnapshotFromJson : Json → Option TaskStatusSnapshot
  | .obj fs =>
    (fieldLookup "id" fs).bind fun j1 => j1.asStr.bind fun id =>
    (fieldLookup "title" fs).bind fun j2 => j2.asStr.bind fun title =>
    (fieldLookup "status" fs).bind fun j3 => j3.asStr.bind fun st =>
    (TrackerTaskStatus.fromString st).bind fun status =>
    (fieldLookup "completedInSession" fs).bind fun j4 =>
    j4.asBool.map fun completedInSession =>
    { id := id, title := title, status := status,
      completedInSession := completedInSession }
  | _ => none

/-- Serialized form of the tracker state snapshot. -/
def trackerStateToJson (ts : TrackerStateSnapshot) : Json :=
  .obj (.cons "plugin" (.str ts.plugin)
    (optField "epicId" (ts.epicId.map .str)
      (optField "prdPath" (ts.prdPath.map .str)
        (.cons "totalTasks" (.num ts.totalTasks)
          (.cons "tasks" (.arr (encodeList taskSnapshotToJson ts.tasks))
            .nil)))))

/-- Parse the tracker state snapshot. -/
def trackerStateFromJson : Json → Option TrackerStateSnapshot
  | .obj fs =>
    (fieldLookup "plugin" fs).bind fun j1 => j1.asStr.bind fun plugin =>
    (optFieldGet Json.asStr "epicId" fs).bind fun epicId =>
    (optFieldGet Json.asStr "prdPath" fs).bind fun prdPath =>
    (fieldLookup "totalTasks" fs).bind fun j2 => j2.asNat.bind fun totalTasks =>
    (fieldLookup "tasks" fs).bind fun j3 =>
    (match j3 with
      | .arr items => decodeList taskSnapshotFromJson items
      | _ => none).map fun tasks =>
    { plugin := plugin, epicId := epicId, prdPath := prdPath,
      totalTasks := totalTasks, tasks := tasks }
  | _ => none

/-- Serialized form of a persisted iteration result. -/
def iterationToJson (it : PersistedIterationResult) : Json :=
  .obj (.cons "iteration" (.num it.iteration)
    (.cons "status" (.str it.status.toString)
      (.cons "taskId" (.str it.taskId)
        (.cons "taskTitle" (.str it.taskTitle)
          (.cons "taskCompleted" (.bool it.taskCompleted)
            (.cons "durationMs" (.num it.durationMs)
              (optField "error" (it.error.map .str)
                (.cons "startedAt" (.num it.startedAt)
                  (.cons "endedAt" (.num it.endedAt) .nil)))))))))

/-- Parse the leading fields of a persisted iteration result. -/
def iterationFromJsonA (fs : JsonFields) :
    Option (Nat × IterStatus × String × String × Bool) :=
  (fieldLookup "iteration" fs).bind fun j1 => j1.asNat.bind fun iteration =>
  (fieldLookup "status" fs).bind fun j2 => j2.asStr.bind fun st =>
  (IterStatus.fromString st).bind fun status =>
  (fieldLookup "taskId" fs).bind fun j3 => j3.asStr.bind fun taskId =>
  (fieldLookup "taskTitle" fs).bind fun j4 => j4.asStr.bind fun taskTitle =>
  (fieldLookup "taskCompleted" fs).bind fun j5 =>
  j5.asBool.map fun taskCompleted =>
  (iteration, status, taskId, taskTitle, taskCompleted)

/-- Parse the trailing fields of a persisted iteration result. -/
def iterationFromJsonB (fs : JsonFields) :
    Option (Nat × Option String × Nat × Nat) :=
  (fieldLookup "durationMs" fs).bind fun j6 => j6.asNat.bind fun durationMs =>
  (optFieldGet Json.asStr "error" fs).bind fun error =>
  (fieldLookup "startedAt" fs).bind fun j7 => j7.asNat.bind fun startedAt =>
  (fieldLookup "endedAt" fs).bind fun j8 => j8.asNat.map fun endedAt =>
  (durationMs, error, startedAt, endedAt)

/-- Parse a persisted iteration result. -/
def iterationFromJson : Json → Option PersistedIterationResult
  | .obj fs =>
    (iterationFromJsonA fs).bind fun a => (iterationFromJsonB fs).map fun b =>
    { iteration := a.1, status := a.2.1, taskId := a.2.2.1,
      taskTitle := a.2.2.2.1, taskCompleted := a.2.2.2.2,
      durationMs := b.1, error := b.2.1, startedAt := b.2.2.1,
      endedAt := b.2.2.2 }
  | _ => none

/-- Serialized form of the whole persisted session state, fields in
declaration order, optional fields omitted when absent. -/
def sessionToJson (s : PersistedSessionState) : Json :=
  let r16 : JsonFields := .cons "cwd" (.str s.cwd) .nil
  let r15 : JsonFields :=
    .cons "skippedTaskIds" (.arr (encodeList .str s.skippedTaskIds)) r16
  let r14 : JsonFields :=
    .cons "iterations" (.arr (encodeList iterationToJson s.iterations)) r15
  let r13 : JsonFields :=
    .cons "trackerState" (trackerStateToJson s.trackerState) r14
  let r12 : JsonFields := optField "model" (s.model.map .str) r13
  let r11 : JsonFields := .cons "agentPlugin" (.str s.agentPlugin) r12
  let r10 : JsonFields := .cons "isPaused" (.bool s.isPaused) r11
  let r9 : JsonFields := .cons "tasksCompleted" (.num s.tasksCompleted) r10
  let r8 : JsonFields := .cons "maxIterations" (.num s.maxIterations) r9
  let r7 : JsonFields := .cons "currentIteration" (.num s.currentIteration) r8
  let r6 : JsonFields := optField "pausedAt" (s.pausedAt.map fun n => .num n) r7
  let r5 : JsonFields := .cons "updatedAt" (.num s.updatedAt) r6
  let r4 : JsonFields := .cons "startedAt" (.num s.startedAt) r5
  let r3 : JsonFields := .cons "status" (.str s.status.toString) r4
  let r2 : JsonFields := .cons "sessionId" (.str s.sessionId) r3
  let r1 : JsonFields := .cons "version" (.num s.version) r2
  .obj r1

/-- Decode a JSON array of values. -/
def Json.asList {α : Type} (f : Json → Option α) : Json → Option (List α)
  | .arr items => decodeList f items
  | _ => none

/-- Parse the identity fields of a persisted session state. -/
def sessionFromJsonA (fs : JsonFields) :
    Option (Nat × String × SessionStatus × Nat × Nat) :=
  (fieldLookup "version" fs).bind fun j0 => j0.asNat.bind fun version =>
  (fieldLookup "sessionId" fs).bind fun j1 => j1.asStr.bind fun sessionId =>
  (fieldLookup "status" fs).bind fun j2 => j2.asStr.bind fun st =>
  (SessionStatus.fromString st).bind fun status =>
  (fieldLookup "startedAt" fs).bind fun j3 => j3.asNat.bind fun startedAt =>
  (fieldLookup "updatedAt" fs).bind fun j4 => j4.asNat.map fun updatedAt =>
  (version, sessionId, status, startedAt, updatedAt)

/-- Parse the counter fields of a persisted session state. -/
def sessionFromJsonB (fs : JsonFields) :
    Option (Option Nat × Nat × Nat × Nat × Bool) :=
  (optFieldGet Json.asNat "pausedAt" fs).bind fun pausedAt =>
  (fieldLookup "currentIteration" fs).bind fun j5 =>
  j5.asNat.bind fun currentIteration =>
  (fieldLookup "maxIterations" fs).bind fun j6 =>
  j6.asNat.bind fun maxIterations =>
  (fieldLookup "tasksCompleted" fs).bind fun j7 =>
  j7.asNat.bind fun tasksCompleted =>
  (fieldLookup "isPaused" fs).bind fun j8 => j8.asBool.map fun isPaused =>
  (pausedAt, currentIteration, maxIterations, tasksCompleted, isPaused)

/-- Parse the plugin and tracker fields of a persisted session state. -/
def sessionFromJsonC (fs : JsonFields) :
    Option (String × Option String × TrackerStateSnapshot) :=
  (fieldLookup "agentPlugin" fs).bind fun j9 =>
  j9.asStr.bind fun agentPlugin =>
  (optFieldGet Json.asStr "model" fs).bind fun model =>
  (fieldLookup "trackerState" fs).bind fun j10 =>
  (trackerStateFromJson j10).map fun trackerState =>
  (agentPlugin, model, trackerState)

/-- Parse the history fields of a persisted session state. -/
def sessionFromJsonD (fs : JsonFields) :
    Option (List PersistedIterationResult × List String × String) :=
  (fieldLookup "iterations" fs).bind fun j11 =>
  (j11.asList iterationFromJson).bind fun iterations =>
  (fieldLookup "skippedTaskIds" fs).bind fun j12 =>
  (j12.asList Json.asStr).bind fun skippedTaskIds =>
  (fieldLookup "cwd" fs).bind fun j13 => j13.asStr.map fun cwd =>
  (iterations, skippedTaskIds, cwd)

/-- Parse a persisted session state (the `JSON.parse` +
`as PersistedSessionState` cast of `loadPersistedSession`). -/
def sessionFromJson : Json → Option PersistedSessionState
  | .obj fs =>
    (sessionFromJsonA fs).bind fun a =>
    (sessionFromJsonB fs).bind fun b =>
    (sessionFromJsonC fs).bind fun c =>
    (sessionFromJsonD fs).map fun d =>
    { version := a.1, sessionId := a.2.1, status := a.2.2.1,
      startedAt := a.2.2.2.1, updatedAt := a.2.2.2.2,
      pausedAt := b.1, currentIteration := b.2.1, maxIterations := b.2.2.1,
      tasksCompleted := b.2.2.2.1, isPaused := b.2.2.2.2,
      agentPlugin := c.1, model := c.2.1, trackerState := c.2.2,
      iterations := d.1, skippedTaskIds := d.2.1, cwd := d.2.2 }
  | _ => none

/-! ## File store, save and load -/

/-- The file system, as a map from paths to stored JSON documents. -/
def Fs : Type := String → Option Json

/-- Result of `loadPersistedSession`: the returned session (or `null`)
together with whether the version warning was logged. -/
structure LoadResult where
  session : Option PersistedSessionState
  warned : Bool
  deriving DecidableEq

/-- Load persisted session state (`loadPersistedSession`): a missing
file yields no session; a version other than 1 logs a warning but the
parsed state is still returned. -/
def loadPersistedSession (cwd : String) (fs : Fs) : LoadResult :=
  match fs (getSessionFilePath cwd) with
  | none => { session := none, warned := false }
  | some content =>
    match sessionFromJson content with
    | none => { session := none, warned := false }
    | some parsed =>
      { session := some parsed, warned := decide (parsed.version ≠ 1) }

/-- Save persisted session state (`savePersistedSession`): the
timestamp is refreshed and the serialized state is written to the
session file path. -/
def savePersistedSession (state : PersistedSessionState) (now : Nat)
    (fs : Fs) : Fs :=
  fun p =>
    if p = getSessionFilePath state.cwd then
      some (sessionToJson { state with updatedAt := now })
    else fs p

/-- A file-system operation, for tracing how a save writes its file. -/
inductive FsOp where
  | write (path : String) (content : Json)
  | fsync (path : String)
  | rename (src : String) (dst : String)
  deriving DecidableEq

/-- The sequence of file-system operations performed by
`savePersistedSession`: the source issues a single
`writeFile(filePath, JSON.stringify(updatedState, null, 2))`. -/
def savePersistedSessionOps (state : PersistedSessionState) (now : Nat) :
    List FsOp :=
  [FsOp.write (getSessionFilePath state.cwd)
    (sessionToJson { state with updatedAt := now })]

/-- The operation sequence the atomic-write discipline prescribes for
writing `content` to `target`: write a temporary file, fsync it, rename
it over the target. -/
def atomicWriteOps (target : String) (content : Json) : List FsOp :=
  [FsOp.write (target ++ ".tmp") content,
   FsOp.fsync (target ++ ".tmp"),
   FsOp.rename (target ++ ".tmp") target]

/-! ## Traces of session mutators and saves -/

/-- One application of a session mutator or a save, with the clock
value for the operations that read the clock. -/
inductive SessionOp where
  | update (result : IterationResult)
  | pause (now : Nat)
  | resume
  | complete
  | fail (error : Option String)
  | addSkipped (taskId : String)
  | save (now : Nat)

/-- Apply one session operation.  A `save` leaves the state as
persisted by `savePersistedSession`, i.e. with `updatedAt`
refreshed to the time of the save. -/
def applyOp (s : PersistedSessionState) : SessionOp → PersistedSessionState
  | .update r => updateSessionAfterIteration s r
  | .pause now => pauseSession s now
  | .resume => resumePersistedSession s
  | .complete => completeSession s
  | .fail e => failSession s e
  | .addSkipped t => addSkippedTask s t
  | .save now => { s with updatedAt := now }

/-- Apply a list of session operations in order. -/
def applyOps (s : PersistedSessionState) (ops : List SessionOp) :
    PersistedSessionState :=
  ops.foldl applyOp s

/-- The claim's stated precondition: iteration results carry
consecutive 1-based iteration numbers. -/
def consecutiveOk (s : PersistedSessionState) : List SessionOp → Bool
  | [] => true
  | op :: rest =>
    (match op with
     | .update r => r.iteration == s.currentIteration + 1
     | _ => true) && consecutiveOk (applyOp s op) rest

/-- Amended precondition on a trace of operations: iteration numbers
are consecutive and 1-based; a completing iteration result refers to a
task present in the tracker snapshot and not yet completed in this
session; saves never happen at a clock value before the session
started. -/
def goodOps (s : PersistedSessionState) : List SessionOp → Bool
  | [] => true
  | op :: rest =>
    (match op with
     | .update r =>
       (r.iteration == s.currentIteration + 1) &&
         (!r.taskCompleted ||
           s.trackerState.tasks.any fun t =>
             t.id == r.task.id && !t.completedInSession)
     | .save now => decide (s.startedAt ≤ now)
     | _ => true) && goodOps (applyOp s op) rest

/-- Number of snapshot tasks marked completed in this session. -/
def countCompleted : List TaskStatusSnapshot → Nat
  | [] => 0
  | t :: tl => cond t.completedInSession 1 0 + countCompleted tl

/-- Inductive invariant of reachable session states. -/
def SessionInv (s : PersistedSessionState) : Prop :=
  s.startedAt ≤ s.updatedAt ∧
  s.tasksCompleted ≤ countCompleted s.trackerState.tasks ∧
  s.trackerState.tasks.length = s.trackerState.totalTasks ∧
  s.iterations.length = s.currentIteration

/-! ## Remote-module constants

The remote module (`src/remote/types.ts`, `src/remote/client.ts`) is
not part of the sources at hand; only its test suite is.  The constants
below are modelled from the spec (and agree with what the test suite
asserts). -/

/-- Token lifetime constants of the remote module. -/
structure TokenLifetimes where
  SERVER_TOKEN_DAYS : Nat
  CONNECTION_TOKEN_HOURS : Nat
  REFRESH_THRESHOLD_HOURS : Nat

/-- Modelled from the spec: `TOKEN_LIFETIMES` of `src/remote/types.ts`
(missing from the sources; the spec fixes the three lifetimes). -/
def TOKEN_LIFETIMES : TokenLifetimes where
  SERVER_TOKEN_DAYS := 90
  CONNECTION_TOKEN_HOURS := 24
  REFRESH_THRESHOLD_HOURS := 1

/-- Reconnect backoff configuration of the remote client. -/
structure ReconnectConfig where
  initialDelayMs : Nat
  maxDelayMs : Nat
  backoffMultiplier : Nat
  maxRetries : Nat
  silentRetryThreshold : Nat

/-- Modelled from the spec: `DEFAULT_RECONNECT_CONFIG` of
`src/remote/client.ts` (missing from the sources; the spec fixes the
reconnect defaults). -/
def DEFAULT_RECONNECT_CONFIG : ReconnectConfig where
  initialDelayMs := 1000
  maxDelayMs := 30000
  backoffMultiplier := 2
  maxRetries := 10
  silentRetryThreshold := 3

/-! ## Sample data for witnesses and counterexamples -/

/-- A small concrete tracker task. -/
def sampleTask : TrackerTask where
  id := "t1"
  title := "first task"
  status := .pending

/-- Concrete creation options with a single task. -/
def sampleOptions : CreateSessionOptions where
  sessionId := "s-1"
  agentPlugin := "claude-cli"
  model := none
  trackerPlugin := "json"
  epicId := none
  prdPath := none
  maxIterations := 10
  tasks := [sampleTask]
  cwd := "/proj"

/-- Concrete creation options with no tasks at all. -/
def emptyOptions : CreateSessionOptions :=
  { sampleOptions with tasks := [] }

/-- A concrete session state used by witnesses. -/
def sampleSession : PersistedSessionState :=
  createPersistedSession sampleOptions 3

/-- A concrete iteration result completing the sample task in
iteration 1. -/
def sampleResult : IterationResult where
  iteration := 1
  status := .completed
  task := sampleTask
  taskCompleted := true
  durationMs := 250
  error := none
  startedAt := 3
  endedAt := 4

/-- A session whose skipped-task list already contains a duplicate. -/
def dupSkippedSession : PersistedSessionState :=
  { sampleSession with skippedTaskIds := ["a", "a"] }

/-- A session carrying an unknown schema version. -/
def oddVersionSession : PersistedSessionState :=
  { sampleSession with version := 2 }

/-- A file store holding only the serialized `oddVersionSession`. -/
def oddVersionFs : Fs := fun p =>
  if p = getSessionFilePath "/proj" then some (sessionToJson oddVersionSession)
  else none

/-- The empty file store. -/
def emptyFs : Fs := fun _ => none

/-! ## Character-level JSON printing

The Qwen plugin scans raw agent output character by character
(`extractJsonObjects` of `qwen-cli.ts`).  To reason about it we print
`Json` values the way compact `JSON.stringify` does.  Strings escape
`"` and `\`; other characters are printed verbatim (control characters,
which `JSON.stringify` would escape further, behave identically for
the scanner: they are neither quotes, backslashes nor braces). -/

/-- Escape one character of a JSON string literal. -/
def escapeChar (c : Char) : List Char :=
  if c = '"' ∨ c = '\\' then ['\\', c] else [c]

/-- Escape the characters of a JSON string literal body. -/
def escapeChars : List Char → List Char
  | [] => []
  | c :: cs => escapeChar c ++ escapeChars cs

/-- Print a JSON string literal, quotes included. -/
def printString (s : String) : List Char :=
  '"' :: (escapeChars s.data ++ ['"'])

/-- The character of a decimal digit. -/
def digitChar (d : Nat) : Char := Char.ofNat (48 + d)

/-- Print a natural number in decimal. -/
def printNat (n : Nat) : List Char :=
  if n = 0 then ['0'] else ((Nat.digits 10 n).reverse.map digitChar)

/-- Print an integer in decimal. -/
def printInt (n : Int) : List Char :=
  if n < 0 then '-' :: printNat n.natAbs else printNat n.toNat

/-- Characters of the `null` keyword. -/
def nullChars : List Char := ['n', 'u', 'l', 'l']

/-- Characters of the `true` keyword. -/
def trueChars : List Char := ['t', 'r', 'u', 'e']

/-- Characters of the `false` keyword. -/
def falseChars : List Char := ['f', 'a', 'l', 's', 'e']

mutual

/-- Print a JSON value the way compact `JSON.stringify` does. -/
def printChars : Json → List Char
  | .null => nullChars
  | .bool true => trueChars
  | .bool false => falseChars
  | .num n => printInt n
  | .str s => printString s
  | .arr items => '[' :: (printList items ++ [']'])
  | .obj fields => '{' :: (printFields fields ++ ['}'])

/-- Print array elements, comma-separated, without the brackets. -/
def printList : JsonList → List Char
  | .nil => []
  | .cons v .nil => printChars v
  | .cons v (.cons w tl) => printChars v ++ ',' :: printList (.cons w tl)

/-- Print object fields, comma-separated, without the braces. -/
def printFields : JsonFields → List Char
  | .nil => []
  | .cons k v .nil => printString k ++ ':' :: printChars v
  | .cons k v (.cons k2 w tl) =>
    printString k ++ ':' :: printChars v ++ ',' :: printFields (.cons k2 w tl)

end

/-! ## The character scanner of `extractJsonObjects` -/

/-- State of the bracket-matching scan: brace depth, whether inside a
string literal, whether the previous character was an unconsumed
backslash. -/
structure ScanState where
  depth : Int
  inString : Bool
  escaped : Bool
  deriving DecidableEq

/-- Scan state at the `{` that starts a scan. -/
def initScan : ScanState := ⟨0, false, false⟩

/-- Depth change contributed by a character outside a string. -/
def braceDelta (c : Char) : Int :=
  (if c = '{' then 1 else 0) - (if c = '}' then 1 else 0)

/-- One step of the scan loop of `extractJsonObjects`. -/
def scanStep (st : ScanState) (c : Char) : ScanState :=
  if st.escaped then { st with escaped := false }
  else if c = '\\' then { st with escaped := true }
  else if c = '"' then { st with inString := !st.inString }
  else if st.inString then st
  else { st with depth := st.depth + braceDelta c }

/-- Whether the scan loop stops at this character (`depth === 0` after
applying the braces, checked only outside strings and escapes). -/
def stopsAt (st : ScanState) (c : Char) : Bool :=
  !st.escaped && c != '\\' && c != '"' && !st.inString &&
    decide (st.depth + braceDelta c = 0)

/-- Index of the character at which the scan loop of
`extractJsonObjects` breaks with `depth === 0`, if any (the source's
`end`, relative to the scan start). -/
def findEnd : List Char → ScanState → Option Nat
  | [], _ => none
  | c :: cs, st =>
    if stopsAt st c then some 0
    else (findEnd cs (scanStep st c)).map (· + 1)

/-- Run the scan over a list of characters. -/
def runScan (st : ScanState) (cs : List Char) : ScanState :=
  cs.foldl scanStep st

/-! ## A JSON parser (model of `JSON.parse` on compact documents)

The parser is a fuel-driven recursive descent over the characters.  It
accepts the compact documents `JSON.stringify` produces (it does not
skip whitespace, and it is permissive about trailing commas, which
stringified output never contains). -/

/-- Numeric value of a decimal digit character. -/
def charToDigit (c : Char) : Nat := c.toNat - 48

/-- Whether the first character, if any, is a decimal digit. -/
def headNotDigit : List Char → Bool
  | [] => true
  | c :: _ => !c.isDigit

/-- Parse a nonempty run of decimal digits. -/
def parseDigits (cs : List Char) : Option (Nat × List Char) :=
  let ds := cs.takeWhile fun c => c.isDigit
  if ds.isEmpty then none
  else some (Nat.ofDigits 10 ((ds.map charToDigit).reverse),
    cs.dropWhile fun c => c.isDigit)

/-- Unescape the character after a backslash in a string literal. -/
def unescapeChar (c : Char) : Option Char :=
  if c = '"' then some '"'
  else if c = '\\' then some '\\'
  else if c = '/' then some '/'
  else if c = 'n' then some (Char.ofNat 10)
  else if c = 't' then some (Char.ofNat 9)
  else if c = 'r' then some (Char.ofNat 13)
  else if c = 'b' then some (Char.ofNat 8)
  else if c = 'f' then some (Char.ofNat 12)
  else none

/-- Parse the body of a string literal up to its closing quote. -/
def parseStringBody : List Char → Option (List Char × List Char)
  | [] => none
  | '"' :: cs => some ([], cs)
  | '\\' :: [] => none
  | '\\' :: e :: cs2 =>
    (unescapeChar e).bind fun u =>
    (parseStringBody cs2).map fun r => (u :: r.1, r.2)
  | c :: cs => (parseStringBody cs).map fun r => (c :: r.1, r.2)

mutual

/-- Parse one JSON value. -/
def parseValue : Nat → List Char → Option (Json × List Char)
  | 0, _ => none
  | fuel + 1, cs =>
    match cs with
    | [] => none
    | c :: rest =>
      if c = 'n' then
        match rest with
        | 'u' :: 'l' :: 'l' :: r => some (.null, r)
        | _ => none
      else if c = 't' then
        match rest with
        | 'r' :: 'u' :: 'e' :: r => some (.bool true, r)
        | _ => none
      else if c = 'f' then
        match rest with
        | 'a' :: 'l' :: 's' :: 'e' :: r => some (.bool false, r)
        | _ => none
      else if c = '"' then
        (parseStringBody rest).map fun r => (.str (String.mk r.1), r.2)
      else if c = '[' then
        (parseItems fuel rest).map fun r => (.arr r.1, r.2)
      else if c = '{' then
        (parseFields fuel rest).map fun r => (.obj r.1, r.2)
      else if c = '-' then
        (parseDigits rest).map fun r => (.num (-(r.1 : Int)), r.2)
      else if c.isDigit then
        (parseDigits (c :: rest)).map fun r => (.num (r.1 : Int), r.2)
      else none

/-- Parse array elements after the opening bracket. -/
def parseItems : Nat → List Char → Option (JsonList × List Char)
  | 0, _ => none
  | fuel + 1, cs =>
    match cs with
    | [] => none
    | c :: rest =>
      if c = ']' then some (.nil, rest)
      else
        (parseValue fuel (c :: rest)).bind fun v =>
        match v.2 with
        | ',' :: r2 =>
          (parseItems fuel r2).map fun tl => (.cons v.1 tl.1, tl.2)
        | ']' :: r2 => some (.cons v.1 .nil, r2)
        | _ => none

/-- Parse object fields after the opening brace. -/
def parseFields : Nat → List Char → Option (JsonFields × List Char)
  | 0, _ => none
  | fuel + 1, cs =>
    match cs with
    | [] => none
    | c :: rest =>
      if c = '}' then some (.nil, rest)
      else if c = '"' then
        (parseStringBody rest).bind fun k =>
        match k.2 with
        | ':' :: r3 =>
          (parseValue fuel r3).bind fun v =>
          (match v.2 with
           | ',' :: r5 =>
             (parseFields fuel r5).map fun tl =>
               (JsonFields.cons (String.mk k.1) v.1 tl.1, tl.2)
           | '}' :: r5 => some (.cons (String.mk k.1) v.1 .nil, r5)
           | _ => none)
        | _ => none
      else none

end

/-- Parse a whole JSON document (`JSON.parse`): one value consuming
the entire input.  One unit of fuel per character suffices, since
every recursion level consumes at least one character. -/
def Json.parse (cs : List Char) : Option Json :=
  match parseValue (cs.length + 1) cs with
  | some (v, []) => some v
  | _ => none

mutual

/-- Fuel sufficient for `parseValue` on this printed value. -/
def jfuel : Json → Nat
  | .null => 1
  | .bool _ => 1
  | .num _ => 1
  | .str _ => 1
  | .arr l => lfuel l + 1
  | .obj fs => ffuel fs + 1

/-- Fuel sufficient for `parseItems` on these printed elements. -/
def lfuel : JsonList → Nat
  | .nil => 1
  | .cons v tl => max (jfuel v) (lfuel tl) + 1

/-- Fuel sufficient for `parseFields` on these printed fields. -/
def ffuel : JsonFields → Nat
  | .nil => 1
  | .cons _ v tl => max (jfuel v) (ffuel tl) + 1

end

/-! ## `extractJsonObjects` and `parseQwenOutputToEvents` input model -/

/-- Index of the first `{`, the source's `current.indexOf('{')`. -/
def idxOfBrace : List Char → Option Nat
  | [] => none
  | c :: cs => if c = '{' then some 0 else (idxOfBrace cs).map (· + 1)

/-- The loop of `extractJsonObjects`: find the first `{`, scan for the
matching close brace, parse the spanned substring; on success continue
after it, on parse failure retry after the `{`; when no `{` remains the
remaining text is dropped, and when no close brace is found the text
from the `{` on is returned as `remaining`.  Fuel one more than the
input length suffices: every iteration consumes at least one
character. -/
def extractLoop : Nat → List Char → List Json × List Char
  | 0, cs => ([], cs)
  | fuel + 1, cs =>
    match idxOfBrace cs with
    | none => ([], [])
    | some start =>
      match findEnd (cs.drop start) initScan with
      | none => ([], cs.drop start)
      | some endRel =>
        match Json.parse ((cs.drop start).take (endRel + 1)) with
        | some o =>
          let r := extractLoop fuel ((cs.drop start).drop (endRel + 1))
          (o :: r.1, r.2)
        | none => extractLoop fuel (cs.drop (start + 1))

/-- Extract all JSON objects from a potentially messy string
(`extractJsonObjects` of `qwen-cli.ts`). -/
def extractJsonObjects (cs : List Char) : List Json × List Char :=
  extractLoop (cs.length + 1) cs

/-- Whether a chunk of text is free of opening braces. -/
def noBrace (cs : List Char) : Bool := cs.all fun c => c != '{'

/-- Whether a JSON value is an object. -/
def Json.isObj : Json → Bool
  | .obj _ => true
  | _ => false

/-- Interleave noise chunks with stringified values: each pair
contributes its noise followed by its printed value, and the final
chunk closes the input. -/
def interleave : List (List Char × Json) → List Char → List Char
  | [], tail => tail
  | (n, o) :: rest, tail => n ++ (printChars o ++ interleave rest tail)

/-- The values of an interleaving, in order. -/
def objectsOf (ps : List (List Char × Json)) : List Json :=
  ps.map fun p => p.2

/-- Concrete interleaving for the C10 witness: noise, an object with
one numeric field, then an empty object, then trailing noise. -/
def samplePairs : List (List Char × Json) :=
  [(['x'], Json.obj (.cons "a" (.num 1) .nil)), ([], Json.obj .nil)]

/-- Concrete trailing noise for the C10 witness. -/
def sampleTailNoise : List Char := ['!']

/-- Concrete fields of the truncated object of the C10 witness. -/
def sampleTruncFields : JsonFields := .cons "k" (.str "v") .nil

/-- The complete characters of the truncated witness object. -/
def sampleTruncAll : List Char := printChars (Json.obj sampleTruncFields)

/-- The kept part of the truncated witness object. -/
def sampleTruncKeep : List Char := sampleTruncAll.take 3

/-- The lost part of the truncated witness object. -/
def sampleTruncLost : List Char := sampleTruncAll.drop 3

/-! ## Round-trip of the session codec -/

theorem sessionStatus_roundtrip (st : SessionStatus) :
    SessionStatus.fromString st.toString = some st := by
  cases st <;> rfl

theorem trackerTaskStatus_roundtrip (st : TrackerTaskStatus) :
    TrackerTaskStatus.fromString st.toString = some st := by
  cases st <;> rfl

theorem iterStatus_roundtrip (st : IterStatus) :
    IterStatus.fromString st.toString = some st := by
  cases st <;> rfl

theorem Json.asNat_num (n : Nat) : Json.asNat (.num n) = some n := by
  simp [Json.asNat]

theorem decodeList_encodeList {α : Type} (f : Json → Option α) (g : α → Json)
    (hr : ∀ a, f (g a) = some a) (l : List α) :
    decodeList f (encodeList g l) = some l := by
  induction l with
  | nil => rfl
  | cons a tl ih => simp [encodeList, decodeList, hr, ih]

theorem taskSnapshotFromJson_toJson (t : TaskStatusSnapshot) :
    taskSnapshotFromJson (taskSnapshotToJson t) = some t := by
  simp [taskSnapshotFromJson, taskSnapshotToJson, fieldLookup, Json.asStr,
    Json.asBool, trackerTaskStatus_roundtrip]

theorem trackerStateFromJson_toJson (ts : TrackerStateSnapshot) :
    trackerStateFromJson (trackerStateToJson ts) = some ts := by
  obtain ⟨plugin, epicId, prdPath, totalTasks, tasks⟩ := ts
  cases epicId <;> cases prdPath <;>
    simp [trackerStateFromJson, trackerStateToJson, fieldLookup, optField,
      optFieldGet, Json.asStr, Json.asNat_num,
      decodeList_encodeList _ _ taskSnapshotFromJson_toJson]

theorem iterationFromJson_toJson (it : PersistedIterationResult) :
    iterationFromJson (iterationToJson it) = some it := by
  obtain ⟨iteration, status, taskId, taskTitle, taskCompleted, durationMs,
    error, startedAt, endedAt⟩ := it
  cases error <;>
    simp [iterationFromJson, iterationFromJsonA, iterationFromJsonB,
      iterationToJson, fieldLookup, optField, optFieldGet, Json.asStr,
      Json.asNat_num, Json.asBool, iterStatus_roundtrip]

theorem sessionFromJson_toJson (s : PersistedSessionState) :
    sessionFromJson (sessionToJson s) = some s := by
  obtain ⟨version, sessionId, status, startedAt, updatedAt, pausedAt,
    currentIteration, maxIterations, tasksCompleted, isPaused, agentPlugin,
    model, trackerState, iterations, skippedTaskIds, cwd⟩ := s
  cases pausedAt <;> cases model <;>
    simp [sessionFromJson, sessionFromJsonA, sessionFromJsonB,
      sessionFromJsonC, sessionFromJsonD, sessionToJson, fieldLookup,
      optField, optFieldGet, Json.asStr, Json.asNat_num, Json.asBool,
      Json.asList, sessionStatus_roundtrip,
      trackerStateFromJson_toJson,
      decodeList_encodeList _ _ iterationFromJson_toJson,
      decodeList_encodeList Json.asStr Json.str (fun a => rfl)]

/-! ## Invariant preservation -/

theorem markTask_keeps_completed (r : IterationResult)
    (t : TaskStatusSnapshot) (h : t.completedInSession = true) :
    (markTask r t).completedInSession = true := by
  unfold markTask
  split <;> simp [h]

theorem countCompleted_le_length (l : List TaskStatusSnapshot) :
    countCompleted l ≤ l.length := by
  induction l with
  | nil => simp [countCompleted]
  | cons t tl ih =>
    rcases h : t.completedInSession with _ | _ <;>
      simp [countCompleted, h] <;> omega

theorem countCompleted_le_map_mark (r : IterationResult)
    (l : List TaskStatusSnapshot) :
    countCompleted l ≤ countCompleted (l.map (markTask r)) := by
  induction l with
  | nil => simp [countCompleted]
  | cons t tl ih =>
    simp only [List.map_cons, countCompleted]
    rcases h : t.completedInSession with _ | _
    · simp only [h, Bool.cond_false]
      omega
    · simp only [h, markTask_keeps_completed r t h, Bool.cond_true]
      omega

theorem countCompleted_map_mark_succ (r : IterationResult)
    (l : List TaskStatusSnapshot) (hc : r.taskCompleted = true)
    (h : l.any (fun t => t.id == r.task.id && !t.completedInSession) = true) :
    countCompleted l + 1 ≤ countCompleted (l.map (markTask r)) := by
  induction l with
  | nil => simp at h
  | cons t tl ih =>
    simp only [List.any_cons, Bool.or_eq_true, Bool.and_eq_true,
      beq_iff_eq, Bool.not_eq_true'] at h
    have hmono := countCompleted_le_map_mark r tl
    simp only [List.map_cons, countCompleted]
    rcases h with ⟨hid, hnc⟩ | htl
    · have hm : markTask r t =
          { t with status := .completed, completedInSession := true } := by
        unfold markTask
        rw [if_pos ⟨hid, hc⟩]
      simp only [hm, hnc, Bool.cond_false, Bool.cond_true]
      omega
    · have := ih htl
      rcases hh : t.completedInSession with _ | _
      · simp only [hh, Bool.cond_false]
        omega
      · simp only [hh, markTask_keeps_completed r t hh, Bool.cond_true]
        omega

theorem sessionInv_create (o : CreateSessionOptions) (now : Nat) :
    SessionInv (createPersistedSession o now) := by
  refine ⟨Nat.le_refl _, ?_, ?_, rfl⟩
  · simp [createPersistedSession, countCompleted]
  · simp [createPersistedSession]

theorem sessionInv_applyOps (s : PersistedSessionState)
    (ops : List SessionOp) (hinv : SessionInv s)
    (hops : goodOps s ops = true) : SessionInv (applyOps s ops) := by
  induction ops generalizing s with
  | nil => exact hinv
  | cons op rest ih =>
    simp only [goodOps, Bool.and_eq_true] at hops
    obtain ⟨hop, hrest⟩ := hops
    refine ih (applyOp s op) ?_ hrest
    obtain ⟨h1, h2, h3, h4⟩ := hinv
    cases op with
    | update r =>
      simp only [Bool.and_eq_true, beq_iff_eq, Bool.or_eq_true,
        Bool.not_eq_true'] at hop
      obtain ⟨hiter, hcomp⟩ := hop
      refine ⟨h1, ?_, ?_, ?_⟩
      · rcases hc : r.taskCompleted with _ | _
        · simpa [applyOp, updateSessionAfterIteration, hc, countCompleted]
            using h2.trans (countCompleted_le_map_mark r _)
        · rcases hcomp with hcomp | hany
          · simp [hc] at hcomp
          · have := countCompleted_map_mark_succ r s.trackerState.tasks hc hany
            simp only [applyOp, updateSessionAfterIteration, hc, if_pos]
            simp only [countCompleted] at *
            omega
      · simpa [applyOp, updateSessionAfterIteration] using h3
      · simp [applyOp, updateSessionAfterIteration, h4, hiter]
    | pause now => exact ⟨h1, h2, h3, h4⟩
    | resume => exact ⟨h1, h2, h3, h4⟩
    | complete => exact ⟨h1, h2, h3, h4⟩
    | fail e => exact ⟨h1, h2, h3, h4⟩
    | addSkipped t =>
      simp only [applyOp, addSkippedTask]
      split <;> exact ⟨h1, h2, h3, h4⟩
    | save now =>
      simp only [decide_eq_true_eq] at hop
      exact ⟨hop, h2, h3, h4⟩

/-! ## Claim theorems -/

/-- C1: `savePersistedSession` does not perform the claimed atomic
write.  The source issues one direct `writeFile` of the serialized
state to `<cwd>/.ralph-tui-session.json`: its operation trace is a
single write to the target, not the write-tmp / fsync / rename
sequence. -/
theorem savePersistedSession_single_direct_write :
    savePersistedSessionOps sampleSession 5 =
      [FsOp.write (getSessionFilePath sampleSession.cwd)
        (sessionToJson { sampleSession with updatedAt := 5 })] ∧
    savePersistedSessionOps sampleSession 5 ≠
      atomicWriteOps (getSessionFilePath sampleSession.cwd)
        (sessionToJson { sampleSession with updatedAt := 5 }) := by
  refine ⟨rfl, ?_⟩
  simp [savePersistedSessionOps, atomicWriteOps]

/-- C2: loading after saving returns the same state except that
`updatedAt` is set to the time of the save. -/
theorem load_after_save (s : PersistedSessionState) (now : Nat) (fs : Fs) :
    (loadPersistedSession s.cwd (savePersistedSession s now fs)).session =
      some { s with updatedAt := now } := by
  simp [loadPersistedSession, savePersistedSession, sessionFromJson_toJson]

/-- C3 (amended): any state reached from `createPersistedSession` by
the session mutators and saves — with consecutive 1-based iteration
numbers, every completing iteration result referring to a snapshot
task not yet completed in this session, and saves not dated before the
session started — satisfies `updatedAt >= startedAt` and
`tasksCompleted <= totalTasks`, and the number of stored iteration
records equals `currentIteration` (in particular immediately after a
save). -/
theorem session_invariants (o : CreateSessionOptions) (now : Nat)
    (ops : List SessionOp)
    (hops : goodOps (createPersistedSession o now) ops = true) :
    (applyOps (createPersistedSession o now) ops).startedAt ≤
      (applyOps (createPersistedSession o now) ops).updatedAt ∧
    (applyOps (createPersistedSession o now) ops).tasksCompleted ≤
      (applyOps (createPersistedSession o now) ops).trackerState.totalTasks ∧
    (applyOps (createPersistedSession o now) ops).iterations.length =
      (applyOps (createPersistedSession o now) ops).currentIteration := by
  obtain ⟨h1, h2, h3, h4⟩ :=
    sessionInv_applyOps _ ops (sessionInv_create o now) hops
  exact ⟨h1, h2.trans ((countCompleted_le_length _).trans_eq h3), h4⟩

/-- C3 fails as stated: from a session created with no tasks at all
(`totalTasks = 0`), one update with consecutive iteration number 1 and
`taskCompleted = true` drives `tasksCompleted` to 1 > 0. -/
theorem session_invariants_counterexample :
    consecutiveOk (createPersistedSession emptyOptions 0)
      [.update sampleResult] = true ∧
    ¬ ((applyOps (createPersistedSession emptyOptions 0)
          [.update sampleResult]).tasksCompleted ≤
        (applyOps (createPersistedSession emptyOptions 0)
          [.update sampleResult]).trackerState.totalTasks) := by
  decide

/-- Witness for C3 at a concrete creation and trace. -/
theorem session_invariants_witness :
    goodOps (createPersistedSession sampleOptions 3)
      [.update sampleResult, .save 10] = true ∧
    ((applyOps (createPersistedSession sampleOptions 3)
        [.update sampleResult, .save 10]).startedAt ≤
      (applyOps (createPersistedSession sampleOptions 3)
        [.update sampleResult, .save 10]).updatedAt ∧
    (applyOps (createPersistedSession sampleOptions 3)
        [.update sampleResult, .save 10]).tasksCompleted ≤
      (applyOps (createPersistedSession sampleOptions 3)
        [.update sampleResult, .save 10]).trackerState.totalTasks ∧
    (applyOps (createPersistedSession sampleOptions 3)
        [.update sampleResult, .save 10]).iterations.length =
      (applyOps (createPersistedSession sampleOptions 3)
        [.update sampleResult, .save 10]).currentIteration) :=
  ⟨by decide, session_invariants sampleOptions 3 _ (by decide)⟩

/-- C4: `updateSessionAfterIteration` appends exactly one record for
the result (earlier records unchanged), sets `currentIteration` to the
result's iteration, increments `tasksCompleted` exactly when
`taskCompleted` holds, and marks a snapshot task completed exactly
when it carries the result's task id and the result completed it. -/
theorem updateSessionAfterIteration_spec (s : PersistedSessionState)
    (r : IterationResult) :
    (updateSessionAfterIteration s r).iterations.length =
      s.iterations.length + 1 ∧
    (updateSessionAfterIteration s r).iterations.take s.iterations.length =
      s.iterations ∧
    (updateSessionAfterIteration s r).iterations.getLast? =
      some (iterationRecord r) ∧
    (updateSessionAfterIteration s r).currentIteration = r.iteration ∧
    (r.taskCompleted = true →
      (updateSessionAfterIteration s r).tasksCompleted =
        s.tasksCompleted + 1) ∧
    (r.taskCompleted = false →
      (updateSessionAfterIteration s r).tasksCompleted = s.tasksCompleted) ∧
    (∀ i : Nat, (updateSessionAfterIteration s r).trackerState.tasks[i]? =
      (s.trackerState.tasks[i]?).map fun t =>
        if t.id = r.task.id ∧ r.taskCompleted = true then
          { t with status := .completed, completedInSession := true }
        else t) := by
  refine ⟨?_, ?_, ?_, rfl, fun h => ?_, fun h => ?_, fun i => ?_⟩
  · simp [updateSessionAfterIteration]
  · simp [updateSessionAfterIteration, List.take_left]
  · simp [updateSessionAfterIteration]
  · simp [updateSessionAfterIteration, h]
  · simp [updateSessionAfterIteration, h]
  · cases h : s.trackerState.tasks[i]? with
    | none => simp [updateSessionAfterIteration, h]
    | some t => simp [updateSessionAfterIteration, h, markTask]

/-- Witness for C4 at a concrete state and result. -/
theorem updateSessionAfterIteration_witness :
    (updateSessionAfterIteration sampleSession
      sampleResult).currentIteration = 1 ∧
    (updateSessionAfterIteration sampleSession
      sampleResult).tasksCompleted = 1 := by
  refine ⟨(updateSessionAfterIteration_spec sampleSession
    sampleResult).2.2.2.1, ?_⟩
  rw [(updateSessionAfterIteration_spec sampleSession
    sampleResult).2.2.2.2.1 rfl]
  decide

/-- C5: loading returns no session when the file is absent; when the
file holds a session with a version other than 1 it logs a warning but
still returns the parsed state. -/
theorem loadPersistedSession_spec :
    (∀ cwd fs, fs (getSessionFilePath cwd) = none →
      loadPersistedSession cwd fs = ⟨none, false⟩) ∧
    (∀ cwd fs s, fs (getSessionFilePath cwd) = some (sessionToJson s) →
      s.version ≠ 1 → loadPersistedSession cwd fs = ⟨some s, true⟩) := by
  constructor
  · intro cwd fs h
    simp [loadPersistedSession, h]
  · intro cwd fs s h hv
    simp [loadPersistedSession, h, sessionFromJson_toJson, hv]

/-- Witness for C5: an absent file and a version-2 file. -/
theorem loadPersistedSession_witness :
    loadPersistedSession "/proj" emptyFs = ⟨none, false⟩ ∧
    loadPersistedSession "/proj" oddVersionFs =
      ⟨some oddVersionSession, true⟩ :=
  ⟨loadPersistedSession_spec.1 "/proj" emptyFs rfl,
    loadPersistedSession_spec.2 "/proj" oddVersionFs oddVersionSession
      (by simp [oddVersionFs]) (by decide)⟩

/-- C6: a session is resumable exactly when its status is running,
paused or interrupted, and never when completed or failed. -/
theorem isSessionResumable_iff (s : PersistedSessionState) :
    (isSessionResumable s = true ↔
      (s.status = .running ∨ s.status = .paused ∨
        s.status = .interrupted)) ∧
    ((s.status = .completed ∨ s.status = .failed) →
      isSessionResumable s = false) := by
  cases h : s.status <;> simp [isSessionResumable, h]

/-- Witness for C6 at concrete running and completed sessions. -/
theorem isSessionResumable_witness :
    isSessionResumable sampleSession = true ∧
    isSessionResumable (completeSession sampleSession) = false :=
  ⟨(isSessionResumable_iff sampleSession).1.mpr (Or.inl rfl),
    (isSessionResumable_iff (completeSession sampleSession)).2
      (Or.inl rfl)⟩

/-- C7 (amended): `addSkippedTask` is idempotent, and provided the
state does not already hold the task id more than once — an invariant
of all states the mutators produce — the result holds the id exactly
once and is otherwise unchanged. -/
theorem addSkippedTask_spec (s : PersistedSessionState) (t : String) :
    (addSkippedTask (addSkippedTask s t) t = addSkippedTask s t) ∧
    (s.skippedTaskIds.count t ≤ 1 →
      (addSkippedTask s t).skippedTaskIds.count t = 1 ∧
      (addSkippedTask s t).skippedTaskIds.filter (fun x => x != t) =
        s.skippedTaskIds.filter (fun x => x != t)) := by
  by_cases h : t ∈ s.skippedTaskIds
  · constructor
    · simp [addSkippedTask, h]
    · intro hle
      have hpos : 0 < s.skippedTaskIds.count t := List.count_pos_iff.mpr h
      constructor
      · simp only [addSkippedTask]
        rw [if_pos (by simpa using h)]
        omega
      · simp [addSkippedTask, h]
  · have hzero : s.skippedTaskIds.count t = 0 := List.count_eq_zero.mpr h
    constructor
    · simp [addSkippedTask, h]
    · intro _
      refine ⟨?_, ?_⟩
      · simp [addSkippedTask, h, hzero]
      · simp [addSkippedTask, h]

/-- C7 fails as stated on a state already holding the id twice:
`addSkippedTask` returns it unchanged, so the id is not held exactly
once. -/
theorem addSkippedTask_counterexample :
    (addSkippedTask dupSkippedSession "a").skippedTaskIds.count "a" ≠ 1 := by
  decide

/-- Witness for C7 at a concrete state. -/
theorem addSkippedTask_witness :
    (addSkippedTask (addSkippedTask sampleSession "a") "a" =
      addSkippedTask sampleSession "a") ∧
    (addSkippedTask sampleSession "a").skippedTaskIds.count "a" = 1 :=
  ⟨(addSkippedTask_spec sampleSession "a").1,
    ((addSkippedTask_spec sampleSession "a").2 (by decide)).1⟩

/-- C9: pausing then resuming a running, unpaused session restores it
exactly, and pausing changes only `status`, `isPaused` and `pausedAt`. -/
theorem pause_resume_roundtrip (s : PersistedSessionState) (now : Nat)
    (h1 : s.status = .running) (h2 : s.isPaused = false)
    (h3 : s.pausedAt = none) :
    resumePersistedSession (pauseSession s now) = s ∧
    pauseSession s now =
      { s with status := .paused, isPaused := true, pausedAt := some now } := by
  refine ⟨?_, rfl⟩
  obtain ⟨v, sid, st, sa, ua, pa, ci, mi, tc, ip, ap, m, ts, its, sk, cwd⟩ := s
  simp only at h1 h2 h3
  subst h1 h2 h3
  rfl

/-- Witness for C9 at a concrete running session. -/
theorem pause_resume_witness :
    resumePersistedSession (pauseSession sampleSession 7) = sampleSession :=
  (pause_resume_roundtrip sampleSession 7 rfl rfl rfl).1

/-- C8: the remote module's constants, modelled from the spec, carry
the spec's values. -/
theorem remote_constants :
    TOKEN_LIFETIMES.SERVER_TOKEN_DAYS = 90 ∧
    TOKEN_LIFETIMES.CONNECTION_TOKEN_HOURS = 24 ∧
    TOKEN_LIFETIMES.REFRESH_THRESHOLD_HOURS = 1 ∧
    DEFAULT_RECONNECT_CONFIG.initialDelayMs = 1000 ∧
    DEFAULT_RECONNECT_CONFIG.maxDelayMs = 30000 ∧
    DEFAULT_RECONNECT_CONFIG.backoffMultiplier = 2 ∧
    DEFAULT_RECONNECT_CONFIG.maxRetries = 10 ∧
    DEFAULT_RECONNECT_CONFIG.silentRetryThreshold = 3 := by
  decide

/-! ## Digits and number printing -/

theorem charToDigit_digitChar : ∀ d < 10, charToDigit (digitChar d) = d := by
  decide

theorem digitChar_isDigit : ∀ d < 10, (digitChar d).isDigit = true := by
  decide

theorem digit_not_special (c : Char) (h : c.isDigit = true) :
    c ≠ 'n' ∧ c ≠ 't' ∧ c ≠ 'f' ∧ c ≠ '"' ∧ c ≠ '[' ∧ c ≠ '{' ∧
      c ≠ '-' ∧ c ≠ ']' ∧ c ≠ '}' ∧ c ≠ ',' ∧ c ≠ ':' ∧ c ≠ '\\' := by
  refine ⟨?_, ?_, ?_, ?_, ?_, ?_, ?_, ?_, ?_, ?_, ?_, ?_⟩ <;>
    · rintro rfl
      revert h
      decide

theorem printNat_all_digits (n : Nat) :
    ∀ c ∈ printNat n, c.isDigit = true := by
  intro c hc
  unfold printNat at hc
  split at hc
  · simp at hc
    subst hc
    decide
  · simp only [List.mem_map, List.mem_reverse] at hc
    obtain ⟨d, hd, rfl⟩ := hc
    exact digitChar_isDigit d (Nat.digits_lt_base (by norm_num) hd)

theorem printNat_ne_nil (n : Nat) : printNat n ≠ [] := by
  unfold printNat
  split
  · simp
  · simp [Nat.digits_ne_nil_iff_ne_zero, *]

theorem headNotDigit_head (b : List Char) (h : headNotDigit b = true) :
    ∀ c, b.head? = some c → c.isDigit = false := by
  cases b with
  | nil => intro c hc; simp at hc
  | cons x xs =>
    intro c hc
    simp only [List.head?_cons, Option.some.injEq] at hc
    subst hc
    simpa [headNotDigit] using h

theorem takeWhile_append_all {α : Type} (p : α → Bool) (a b : List α)
    (ha : ∀ c ∈ a, p c = true)
    (hb : ∀ c, b.head? = some c → p c = false) :
    (a ++ b).takeWhile p = a ∧ (a ++ b).dropWhile p = b := by
  induction a with
  | nil =>
    cases b with
    | nil => simp
    | cons c b' => simp [List.takeWhile_cons, List.dropWhile_cons, hb c rfl]
  | cons x a' ih =>
    have hx : p x = true := ha x (by simp)
    have := ih fun c hc => ha c (by simp [hc])
    simp [List.takeWhile_cons, List.dropWhile_cons, hx, this.1, this.2]

theorem map_charToDigit_printNat (n : Nat) :
    Nat.ofDigits 10 (((printNat n).map charToDigit).reverse) = n := by
  unfold printNat
  split
  · subst n
    simp [charToDigit, digitChar, Nat.ofDigits]
  · rw [List.map_map]
    have : (Nat.digits 10 n).reverse.map (charToDigit ∘ digitChar) =
        (Nat.digits 10 n).reverse.map id := by
      refine List.map_congr_left fun d hd => ?_
      simp only [List.mem_reverse] at hd
      simpa using charToDigit_digitChar d
        (Nat.digits_lt_base (by norm_num) hd)
    rw [this, List.map_id, List.reverse_reverse, Nat.ofDigits_digits]

theorem parseDigits_printNat (n : Nat) (rest : List Char)
    (h : headNotDigit rest = true) :
    parseDigits (printNat n ++ rest) = some (n, rest) := by
  have hb : ∀ c, rest.head? = some c → (fun c => c.isDigit) c = false :=
    headNotDigit_head rest h
  obtain ⟨ht, hd⟩ := takeWhile_append_all (fun c => c.isDigit)
    (printNat n) rest (printNat_all_digits n) hb
  have hne : (printNat n).isEmpty = false := by
    cases hnn : printNat n with
    | nil => exact absurd hnn (printNat_ne_nil n)
    | cons x xs => rfl
  simp only [parseDigits, ht, hd, hne, Bool.false_eq_true, if_false,
    map_charToDigit_printNat]

/-! ## String literal round-trip -/

theorem parseStringBody_escape (s rest : List Char) :
    parseStringBody (escapeChars s ++ '"' :: rest) = some (s, rest) := by
  induction s with
  | nil => simp [escapeChars, parseStringBody]
  | cons c cs ih =>
    by_cases h1 : c = '"' ∨ c = '\\'
    · have : escapeChar c = ['\\', c] := by simp [escapeChar, h1]
      rcases h1 with h | h <;> subst h <;>
        simp [escapeChars, this, parseStringBody, unescapeChar, ih]
    · push_neg at h1
      have : escapeChar c = [c] := by simp [escapeChar, h1.1, h1.2]
      simp [escapeChars, this, parseStringBody, h1.1, h1.2, ih]

/-! ## Parser and printer round-trip -/


theorem string_mk_data (s : String) : String.mk s.data = s := rfl

theorem printNat_shape (n : Nat) :
    ∃ c cs, printNat n = c :: cs ∧ c.isDigit = true := by
  cases hp : printNat n with
  | nil => exact absurd hp (printNat_ne_nil n)
  | cons c cs =>
    exact ⟨c, cs, rfl, printNat_all_digits n c (by simp [hp])⟩

theorem printChars_head (v : Json) :
    ∃ c cs, printChars v = c :: cs ∧ c ≠ ']' ∧ c ≠ '}' := by
  cases v with
  | null => exact ⟨'n', _, rfl, by decide, by decide⟩
  | bool b =>
    cases b with
    | true => exact ⟨'t', _, rfl, by decide, by decide⟩
    | false => exact ⟨'f', _, rfl, by decide, by decide⟩
  | num n =>
    by_cases hn : n < 0
    · exact ⟨'-', printNat n.natAbs, by simp [printChars, printInt, hn],
        by decide, by decide⟩
    · obtain ⟨c, cs, hp, hcd⟩ := printNat_shape n.toNat
      obtain ⟨_, _, _, _, _, _, _, h8, h9, _⟩ := digit_not_special c hcd
      exact ⟨c, cs, by simp [printChars, printInt, hn, hp], h8, h9⟩
  | str s => exact ⟨'"', _, rfl, by decide, by decide⟩
  | arr l => exact ⟨'[', _, rfl, by decide, by decide⟩
  | obj fields => exact ⟨'{', _, rfl, by decide, by decide⟩

theorem jfuel_pos (v : Json) : 1 ≤ jfuel v := by
  cases v <;> simp [jfuel]

theorem lfuel_pos (l : JsonList) : 1 ≤ lfuel l := by
  cases l <;> simp [lfuel]

theorem ffuel_pos (fs : JsonFields) : 1 ≤ ffuel fs := by
  cases fs <;> simp [ffuel]

theorem lfuel_cons_le (v : Json) (tl : JsonList) (f : Nat)
    (h : lfuel (.cons v tl) ≤ f + 1) : jfuel v ≤ f ∧ lfuel tl ≤ f := by
  rw [show lfuel (.cons v tl) = max (jfuel v) (lfuel tl) + 1 by
    simp [lfuel]] at h
  omega

theorem ffuel_cons_le (k : String) (v : Json) (tl : JsonFields) (f : Nat)
    (h : ffuel (.cons k v tl) ≤ f + 1) : jfuel v ≤ f ∧ ffuel tl ≤ f := by
  rw [show ffuel (.cons k v tl) = max (jfuel v) (ffuel tl) + 1 by
    simp [ffuel]] at h
  omega

mutual

theorem parse_print_val (v : Json) : ∀ (fuel : Nat) (rest : List Char),
    jfuel v ≤ fuel → headNotDigit rest = true →
    parseValue fuel (printChars v ++ rest) = some (v, rest) := by
  intro fuel rest hfuel hrest
  obtain ⟨f, rfl⟩ : ∃ f, fuel = f + 1 :=
    ⟨fuel - 1, by have := jfuel_pos v; omega⟩
  cases v with
  | null => simp [printChars, nullChars, parseValue]
  | bool b =>
    cases b <;> simp [printChars, trueChars, falseChars, parseValue]
  | str s =>
    simp [printChars, printString, parseValue, parseStringBody_escape,
      string_mk_data]
  | num n =>
    by_cases hn : n < 0
    · have habs : ((n.natAbs : Nat) : Int) = -n :=
        Int.ofNat_natAbs_of_nonpos (le_of_lt hn)
      simp only [printChars, printInt, if_pos hn, List.cons_append]
      simp [parseValue, parseDigits_printNat n.natAbs rest hrest, habs]
    · have habs : ((n.toNat : Nat) : Int) = n := Int.toNat_of_nonneg (by omega)
      simp only [printChars, printInt, if_neg hn]
      obtain ⟨c, cs, hp, hcd⟩ := printNat_shape n.toNat
      obtain ⟨h1, h2, h3, h4, h5, h6, h7, _, _, _⟩ :=
        digit_not_special c hcd
      rw [hp]
      simp only [List.cons_append, parseValue, if_neg h1, if_neg h2,
        if_neg h3, if_neg h4, if_neg h5, if_neg h6, if_neg h7, hcd, if_pos]
      rw [show c :: (cs ++ rest) = (c :: cs) ++ rest by simp, ← hp,
        parseDigits_printNat n.toNat rest hrest]
      simp [habs]
  | arr l =>
    have hl : lfuel l ≤ f := by simp [jfuel] at hfuel; omega
    simp [printChars, parseValue, parse_print_items l f rest hl]
  | obj fields =>
    have hf : ffuel fields ≤ f := by simp [jfuel] at hfuel; omega
    simp [printChars, parseValue, parse_print_fields fields f rest hf]

theorem parse_print_items (l : JsonList) : ∀ (fuel : Nat) (rest : List Char),
    lfuel l ≤ fuel →
    parseItems fuel (printList l ++ (']' :: rest)) = some (l, rest) := by
  intro fuel rest hfuel
  obtain ⟨f, rfl⟩ : ∃ f, fuel = f + 1 :=
    ⟨fuel - 1, by have := lfuel_pos l; omega⟩
  cases l with
  | nil => simp [printList, parseItems]
  | cons v tl =>
    obtain ⟨hv, htl0⟩ := lfuel_cons_le v tl f hfuel
    obtain ⟨c, cs, hp, hne1, hne2⟩ := printChars_head v
    cases tl with
    | nil =>
      simp only [printList]
      rw [hp, List.cons_append]
      simp only [parseItems, if_neg hne1]
      rw [show c :: (cs ++ ']' :: rest) = (c :: cs) ++ (']' :: rest) by simp,
        ← hp, parse_print_val v f (']' :: rest) hv (by rfl)]
      simp
    | cons w tl2 =>
      simp only [printList]
      rw [hp]
      simp only [List.cons_append, List.append_assoc]
      simp only [parseItems, if_neg hne1]
      rw [show c :: (cs ++ (',' :: (printList (.cons w tl2) ++ ']' :: rest)))
            = (c :: cs) ++ (',' :: (printList (.cons w tl2) ++ (']' :: rest)))
          by simp, ← hp, parse_print_val v f _ hv (by rfl)]
      simp [parse_print_items (.cons w tl2) f rest htl0]

theorem parse_print_fields (fs : JsonFields) :
    ∀ (fuel : Nat) (rest : List Char), ffuel fs ≤ fuel →
    parseFields fuel (printFields fs ++ ('}' :: rest)) = some (fs, rest) := by
  intro fuel rest hfuel
  obtain ⟨f, rfl⟩ : ∃ f, fuel = f + 1 :=
    ⟨fuel - 1, by have := ffuel_pos fs; omega⟩
  cases fs with
  | nil => simp [printFields, parseFields]
  | cons k v tl =>
    obtain ⟨hv, htl0⟩ := ffuel_cons_le k v tl f hfuel
    cases tl with
    | nil =>
      simp only [printFields, printString]
      simp only [List.cons_append, List.append_assoc, List.singleton_append]
      simp only [parseFields]
      simp [parseStringBody_escape,
        parse_print_val v f ('}' :: rest) hv (by rfl), string_mk_data]
    | cons k2 w tl2 =>
      simp only [printFields, printString]
      simp only [List.cons_append, List.append_assoc, List.singleton_append]
      simp only [parseFields]
      simp [parseStringBody_escape,
        parse_print_val v f
          (',' :: (printFields (.cons k2 w tl2) ++ ('}' :: rest)))
          hv (by rfl), string_mk_data,
        parse_print_fields (.cons k2 w tl2) f rest htl0]

end


theorem printChars_length_pos (v : Json) : 1 ≤ (printChars v).length := by
  obtain ⟨c, cs, hp, _, _⟩ := printChars_head v
  simp [hp]

mutual

theorem jfuel_le_print (v : Json) : jfuel v ≤ (printChars v).length := by
  cases v with
  | null => simp [jfuel, printChars, nullChars]
  | bool b => cases b <;> simp [jfuel, printChars, trueChars, falseChars]
  | num n => have := printChars_length_pos (.num n); simp [jfuel]; omega
  | str s => have := printChars_length_pos (.str s); simp [jfuel]; omega
  | arr l =>
    have h := lfuel_le_print l
    simp only [jfuel, printChars, List.length_cons, List.length_append,
      List.length_singleton]
    omega
  | obj fields =>
    have h := ffuel_le_print fields
    simp only [jfuel, printChars, List.length_cons, List.length_append,
      List.length_singleton]
    omega

theorem lfuel_le_print (l : JsonList) : lfuel l ≤ (printList l).length + 1 := by
  cases l with
  | nil => simp [lfuel, printList]
  | cons v tl =>
    have hv := jfuel_le_print v
    have hv1 := printChars_length_pos v
    cases tl with
    | nil =>
      rw [show lfuel (.cons v .nil) = max (jfuel v) (lfuel .nil) + 1 by
        simp [lfuel]]
      simp only [printList]
      rw [show lfuel JsonList.nil = 1 by simp [lfuel]]
      omega
    | cons w tl2 =>
      have htl := lfuel_le_print (.cons w tl2)
      rw [show lfuel (.cons v (.cons w tl2)) =
        max (jfuel v) (lfuel (.cons w tl2)) + 1 by simp [lfuel]]
      simp only [printList, List.length_append, List.length_cons]
      omega

theorem ffuel_le_print (fs : JsonFields) :
    ffuel fs ≤ (printFields fs).length + 1 := by
  cases fs with
  | nil => simp [ffuel, printFields]
  | cons k v tl =>
    have hv := jfuel_le_print v
    have hv1 := printChars_length_pos v
    cases tl with
    | nil =>
      rw [show ffuel (.cons k v .nil) = max (jfuel v) (ffuel .nil) + 1 by
        simp [ffuel]]
      rw [show ffuel JsonFields.nil = 1 by simp [ffuel]]
      simp only [printFields, List.length_append, List.length_cons]
      omega
    | cons k2 w tl2 =>
      have htl := ffuel_le_print (.cons k2 w tl2)
      rw [show ffuel (.cons k v (.cons k2 w tl2)) =
        max (jfuel v) (ffuel (.cons k2 w tl2)) + 1 by simp [ffuel]]
      simp only [printFields, List.length_append, List.length_cons]
      omega

end

theorem Json.parse_printChars (v : Json) :
    Json.parse (printChars v) = some v := by
  have h := parse_print_val v ((printChars v).length + 1) []
    (by have := jfuel_le_print v; omega) rfl
  rw [List.append_nil] at h
  simp [Json.parse, h]

/-! ## Scanner correctness and extraction -/

theorem runScan_nil (st : ScanState) : runScan st [] = st := rfl

theorem runScan_cons (st : ScanState) (c : Char) (cs : List Char) :
    runScan st (c :: cs) = runScan (scanStep st c) cs := rfl

theorem runScan_append (st : ScanState) (a b : List Char) :
    runScan st (a ++ b) = runScan (runScan st a) b := by
  simp [runScan, List.foldl_append]

theorem findEnd_append_of_none (a b : List Char) (st : ScanState)
    (h : findEnd a st = none) :
    findEnd (a ++ b) st = (findEnd b (runScan st a)).map (· + a.length) := by
  induction a generalizing st with
  | nil =>
    simp only [List.nil_append, runScan_nil, List.length_nil]
    cases hx : findEnd b st <;> simp [hx]
  | cons c a' ih =>
    simp only [findEnd, List.cons_append, List.append_eq] at h ⊢
    by_cases hs : stopsAt st c = true
    · simp [hs] at h
    · simp only [hs, Bool.false_eq_true, if_false] at h ⊢
      have h' : findEnd a' (scanStep st c) = none := by
        cases hx : findEnd a' (scanStep st c) <;> simp [hx] at h ⊢
      rw [ih (scanStep st c) h', runScan_cons]
      cases hx : findEnd b (runScan (scanStep st c) a') <;> simp [hx]
      omega

theorem findEnd_append_of_some (a b : List Char) (st : ScanState) (i : Nat)
    (h : findEnd a st = some i) : findEnd (a ++ b) st = some i := by
  induction a generalizing st i with
  | nil => simp [findEnd] at h
  | cons c a' ih =>
    simp only [findEnd, List.cons_append, List.append_eq] at h ⊢
    by_cases hs : stopsAt st c = true
    · simpa [hs] using h
    · simp only [hs, Bool.false_eq_true, if_false] at h ⊢
      cases hx : findEnd a' (scanStep st c) with
      | none => simp [hx] at h
      | some j =>
        simp only [hx, Option.map_some'] at h
        rw [ih (scanStep st c) j hx]
        simpa using h

theorem findEnd_prefix_none (a b : List Char) (st : ScanState) (i : Nat)
    (h : findEnd (a ++ b) st = some i) (hlen : a.length ≤ i) :
    findEnd a st = none := by
  induction a generalizing st i with
  | nil => rfl
  | cons c a' ih =>
    simp only [findEnd, List.cons_append, List.append_eq] at h ⊢
    by_cases hs : stopsAt st c = true
    · simp only [hs, if_true, Option.some.injEq] at h
      simp only [List.length_cons] at hlen
      omega
    · simp only [hs, Bool.false_eq_true, if_false] at h ⊢
      cases hx : findEnd (a' ++ b) (scanStep st c) with
      | none => simp [hx] at h
      | some j =>
        simp only [hx, Option.map_some', Option.some.injEq] at h
        have hj : a'.length ≤ j := by
          simp only [List.length_cons] at hlen
          omega
        rw [ih (scanStep st c) j hx hj]
        rfl

theorem braceDelta_zero (c : Char) (h1 : c ≠ '{') (h2 : c ≠ '}') :
    braceDelta c = 0 := by
  simp [braceDelta, h1, h2]

theorem stopsAt_false_of_depth (st : ScanState) (c : Char)
    (h : st.depth + braceDelta c ≠ 0) : stopsAt st c = false := by
  simp [stopsAt, h]

theorem stopsAt_false_inString (st : ScanState) (c : Char)
    (h : st.inString = true) : stopsAt st c = false := by
  simp [stopsAt, h]

theorem stopsAt_false_escaped (st : ScanState) (c : Char)
    (h : st.escaped = true) : stopsAt st c = false := by
  simp [stopsAt, h]

theorem scanStep_plain (st : ScanState) (c : Char) (h2 : st.escaped = false)
    (h3 : c ≠ '\\') (h4 : c ≠ '"') (h5 : st.inString = false)
    (h6 : braceDelta c = 0) : scanStep st c = st := by
  obtain ⟨d, istr, esc⟩ := st
  simp only at h2 h5
  subst h2 h5
  simp [scanStep, h3, h4, h6]

theorem scanStep_string_plain (st : ScanState) (c : Char)
    (h : st.inString = true) (h2 : st.escaped = false) (h3 : c ≠ '\\')
    (h4 : c ≠ '"') : scanStep st c = st := by
  obtain ⟨d, istr, esc⟩ := st
  simp only at h h2
  subst h h2
  simp [scanStep, h3, h4]

/-- A character that is not a quote, backslash or brace is fully inert
for the scan when the depth cannot reach zero. -/
def plainChar (c : Char) : Prop :=
  c ≠ '\\' ∧ c ≠ '"' ∧ braceDelta c = 0

instance (c : Char) : Decidable (plainChar c) := by
  unfold plainChar
  infer_instance

theorem scan_skip_plain_chars (cs : List Char)
    (hcs : ∀ c ∈ cs, plainChar c) :
    ∀ st : ScanState, st.inString = false → st.escaped = false →
    1 ≤ st.depth →
    findEnd cs st = none ∧ runScan st cs = st := by
  induction cs with
  | nil => intro st _ _ _; exact ⟨rfl, rfl⟩
  | cons c cs' ih =>
    intro st h1 h2 h3
    obtain ⟨hc1, hc2, hc3⟩ := hcs c (by simp)
    have hstep : scanStep st c = st := scanStep_plain st c h2 hc1 hc2 h1 hc3
    have hstop : stopsAt st c = false :=
      stopsAt_false_of_depth st c (by rw [hc3]; omega)
    obtain ⟨ih1, ih2⟩ := ih (fun d hd => hcs d (by simp [hd])) st h1 h2 h3
    refine ⟨?_, ?_⟩
    · simp [findEnd, hstop, hstep, ih1]
    · simp [runScan_cons, hstep, ih2]

theorem scan_skip_string_body (s : List Char) :
    ∀ st : ScanState, st.inString = true → st.escaped = false →
    findEnd (escapeChars s) st = none ∧ runScan st (escapeChars s) = st := by
  induction s with
  | nil => intro st _ _; exact ⟨rfl, rfl⟩
  | cons c cs ih =>
    intro st h1 h2
    obtain ⟨ih1, ih2⟩ := ih st h1 h2
    by_cases hc : c = '"' ∨ c = '\\'
    · have he : escapeChar c = ['\\', c] := by simp [escapeChar, hc]
      have hstep1 : scanStep st '\\' = { st with escaped := true } := by
        simp [scanStep, h2]
      have hstop1 : stopsAt st '\\' = false := by simp [stopsAt]
      have hstep2 : scanStep { st with escaped := true } c = st := by
        obtain ⟨d, istr, esc⟩ := st
        simp only at h2
        subst h2
        simp [scanStep]
      have hstop2 : stopsAt { st with escaped := true } c = false :=
        stopsAt_false_escaped _ c rfl
      refine ⟨?_, ?_⟩
      · simp [escapeChars, he, findEnd, hstop1, hstep1, hstop2, hstep2, ih1]
      · simp [escapeChars, he, runScan_cons, hstep1, hstep2, ih2]
    · push_neg at hc
      have he : escapeChar c = [c] := by simp [escapeChar, hc.1, hc.2]
      have hstep : scanStep st c = st :=
        scanStep_string_plain st c h1 h2 hc.2 hc.1
      have hstop : stopsAt st c = false := stopsAt_false_inString st c h1
      refine ⟨?_, ?_⟩
      · simp [escapeChars, he, findEnd, hstop, hstep, ih1]
      · simp [escapeChars, he, runScan_cons, hstep, ih2]

theorem scan_skip_printString (s : String) :
    ∀ st : ScanState, st.inString = false → st.escaped = false →
    findEnd (printString s) st = none ∧ runScan st (printString s) = st := by
  intro st h1 h2
  have hq1 : stopsAt st '"' = false := by simp [stopsAt]
  have hsq : scanStep st '"' = { st with inString := true } := by
    obtain ⟨d, istr, esc⟩ := st
    simp only at h1 h2
    subst h1 h2
    simp [scanStep]
  obtain ⟨hb1, hb2⟩ := scan_skip_string_body s.data { st with inString := true }
    rfl (by simp [h2])
  have hq2 : stopsAt { st with inString := true } '"' = false := by
    simp [stopsAt]
  have hsq2 : scanStep { st with inString := true } '"' = st := by
    obtain ⟨d, istr, esc⟩ := st
    simp only at h1 h2
    subst h1 h2
    simp [scanStep]
  constructor
  · simp only [printString, findEnd, hq1, Bool.false_eq_true, if_false, hsq]
    rw [findEnd_append_of_none _ _ _ hb1, hb2]
    simp [findEnd, hq2]
  · simp only [printString, runScan_cons, hsq]
    rw [runScan_append, hb2]
    simp [runScan, hsq2]

theorem plainChar_of_digit (c : Char) (h : c.isDigit = true) : plainChar c := by
  obtain ⟨_, _, _, h4, _, h6, _, _, h9, _, _, h12⟩ := digit_not_special c h
  exact ⟨h12, h4, braceDelta_zero c h6 h9⟩

theorem printInt_plain (n : Int) : ∀ c ∈ printInt n, plainChar c := by
  intro c hc
  unfold printInt at hc
  split at hc
  · rcases List.mem_cons.mp hc with rfl | hm
    · exact ⟨by decide, by decide, by decide⟩
    · exact plainChar_of_digit c (printNat_all_digits _ c hm)
  · exact plainChar_of_digit c (printNat_all_digits _ c hc)

mutual

theorem scan_skip_val (v : Json) : ∀ st : ScanState, st.inString = false →
    st.escaped = false → 1 ≤ st.depth →
    findEnd (printChars v) st = none ∧ runScan st (printChars v) = st := by
  intro st h1 h2 h3
  cases v with
  | null =>
    rw [show printChars .null = ['n', 'u', 'l', 'l'] by decide]
    exact scan_skip_plain_chars _ (by decide) st h1 h2 h3
  | bool b =>
    cases b with
    | true =>
      rw [show printChars (.bool true) = ['t', 'r', 'u', 'e'] by decide]
      exact scan_skip_plain_chars _ (by decide) st h1 h2 h3
    | false =>
      rw [show printChars (.bool false) = ['f', 'a', 'l', 's', 'e'] by decide]
      exact scan_skip_plain_chars _ (by decide) st h1 h2 h3
  | num n =>
    rw [show printChars (.num n) = printInt n by simp [printChars]]
    exact scan_skip_plain_chars _ (printInt_plain n) st h1 h2 h3
  | str s =>
    rw [show printChars (.str s) = printString s by simp [printChars]]
    exact scan_skip_printString s st h1 h2
  | arr l =>
    have hstep1 : scanStep st '[' = st :=
      scanStep_plain st '[' h2 (by decide) (by decide) h1 (by decide)
    have hstop1 : stopsAt st '[' = false :=
      stopsAt_false_of_depth st '[' (by
        rw [show braceDelta '[' = 0 by decide]; omega)
    have hstep2 : scanStep st ']' = st :=
      scanStep_plain st ']' h2 (by decide) (by decide) h1 (by decide)
    have hstop2 : stopsAt st ']' = false :=
      stopsAt_false_of_depth st ']' (by
        rw [show braceDelta ']' = 0 by decide]; omega)
    obtain ⟨hl1, hl2⟩ := scan_skip_list l st h1 h2 h3
    constructor
    · simp only [printChars, findEnd, hstop1, Bool.false_eq_true, if_false,
        hstep1]
      rw [findEnd_append_of_none _ _ _ hl1, hl2]
      simp [findEnd, hstop2]
    · simp only [printChars, runScan_cons, hstep1]
      rw [runScan_append, hl2]
      simp [runScan, runScan_cons, hstep2]
  | obj fields =>
    have hd1 : braceDelta '{' = 1 := by decide
    have hstop1 : stopsAt st '{' = false :=
      stopsAt_false_of_depth st '{' (by rw [hd1]; omega)
    have hstep1 : scanStep st '{' = { st with depth := st.depth + 1 } := by
      obtain ⟨d, istr, esc⟩ := st
      simp only at h1 h2
      subst h1 h2
      simp [scanStep, braceDelta]
    obtain ⟨hf1, hf2⟩ := scan_skip_fields fields { st with depth := st.depth + 1 }
      (by simp [h1]) (by simp [h2]) (by simp; omega)
    have hstop2 : stopsAt { st with depth := st.depth + 1 } '}' = false :=
      stopsAt_false_of_depth _ '}' (by
        simp [show braceDelta '}' = -1 by decide]; omega)
    have hstep2 : scanStep { st with depth := st.depth + 1 } '}' = st := by
      obtain ⟨d, istr, esc⟩ := st
      simp only at h1 h2
      subst h1 h2
      simp [scanStep, braceDelta]
    constructor
    · simp only [printChars, findEnd, hstop1, Bool.false_eq_true, if_false,
        hstep1]
      rw [findEnd_append_of_none _ _ _ hf1, hf2]
      simp [findEnd, hstop2]
    · simp only [printChars, runScan_cons, hstep1]
      rw [runScan_append, hf2]
      simp [runScan, runScan_cons, hstep2]

theorem scan_skip_list (l : JsonList) : ∀ st : ScanState,
    st.inString = false → st.escaped = false → 1 ≤ st.depth →
    findEnd (printList l) st = none ∧ runScan st (printList l) = st := by
  intro st h1 h2 h3
  cases l with
  | nil =>
    rw [show printList .nil = [] by simp [printList]]
    exact ⟨rfl, rfl⟩
  | cons v tl =>
    cases tl with
    | nil =>
      rw [show printList (.cons v .nil) = printChars v by simp [printList]]
      exact scan_skip_val v st h1 h2 h3
    | cons w tl2 =>
      rw [show printList (.cons v (.cons w tl2)) =
        printChars v ++ ',' :: printList (.cons w tl2) by simp [printList]]
      obtain ⟨hv1, hv2⟩ := scan_skip_val v st h1 h2 h3
      obtain ⟨ht1, ht2⟩ := scan_skip_list (.cons w tl2) st h1 h2 h3
      have hstepc : scanStep st ',' = st :=
        scanStep_plain st ',' h2 (by decide) (by decide) h1 (by decide)
      have hstopc : stopsAt st ',' = false :=
        stopsAt_false_of_depth st ',' (by
          rw [show braceDelta ',' = 0 by decide]; omega)
      constructor
      · rw [findEnd_append_of_none _ _ _ hv1, hv2]
        simp [findEnd, hstopc, hstepc, ht1]
      · rw [runScan_append, hv2]
        simp [runScan_cons, hstepc, ht2]

theorem scan_skip_fields (fs : JsonFields) : ∀ st : ScanState,
    st.inString = false → st.escaped = false → 1 ≤ st.depth →
    findEnd (printFields fs) st = none ∧ runScan st (printFields fs) = st := by
  intro st h1 h2 h3
  cases fs with
  | nil =>
    rw [show printFields .nil = [] by simp [printFields]]
    exact ⟨rfl, rfl⟩
  | cons k v tl =>
    obtain ⟨hk1, hk2⟩ := scan_skip_printString k st h1 h2
    obtain ⟨hv1, hv2⟩ := scan_skip_val v st h1 h2 h3
    have hstepc : scanStep st ':' = st :=
      scanStep_plain st ':' h2 (by decide) (by decide) h1 (by decide)
    have hstopc : stopsAt st ':' = false :=
      stopsAt_false_of_depth st ':' (by
        rw [show braceDelta ':' = 0 by decide]; omega)
    have hL1 : findEnd (printString k ++ ':' :: printChars v) st = none := by
      rw [findEnd_append_of_none _ _ _ hk1, hk2]
      simp [findEnd, hstopc, hstepc, hv1]
    have hL2 : runScan st (printString k ++ ':' :: printChars v) = st := by
      rw [runScan_append, hk2]
      simp [runScan_cons, hstepc, hv2]
    cases tl with
    | nil =>
      rw [show printFields (.cons k v .nil) =
        printString k ++ ':' :: printChars v by simp [printFields]]
      exact ⟨hL1, hL2⟩
    | cons k2 w tl2 =>
      rw [show printFields (.cons k v (.cons k2 w tl2)) =
        (printString k ++ ':' :: printChars v) ++
          (',' :: printFields (.cons k2 w tl2)) by simp [printFields]]
      obtain ⟨ht1, ht2⟩ := scan_skip_fields (.cons k2 w tl2) st h1 h2 h3
      have hstepc2 : scanStep st ',' = st :=
        scanStep_plain st ',' h2 (by decide) (by decide) h1 (by decide)
      have hstopc2 : stopsAt st ',' = false :=
        stopsAt_false_of_depth st ',' (by
          rw [show braceDelta ',' = 0 by decide]; omega)
      constructor
      · rw [findEnd_append_of_none _ _ _ hL1, hL2]
        simp [findEnd, hstopc2, hstepc2, ht1]
      · rw [runScan_append, hL2]
        simp [runScan_cons, hstepc2, ht2]

end

theorem findEnd_print_obj (fs : JsonFields) (rest : List Char) :
    findEnd (printChars (.obj fs) ++ rest) initScan =
      some ((printFields fs).length + 1) := by
  have hobj : printChars (Json.obj fs) = '{' :: (printFields fs ++ ['}']) := by
    simp [printChars]
  have hstop1 : stopsAt initScan '{' = false := by decide
  have hstep1 : scanStep initScan '{' = ⟨1, false, false⟩ := by decide
  obtain ⟨hf1, hf2⟩ := scan_skip_fields fs ⟨1, false, false⟩ rfl rfl (by simp)
  have hstop2 : stopsAt (⟨1, false, false⟩ : ScanState) '}' = true := by decide
  rw [hobj]
  simp only [List.cons_append, List.append_assoc, List.singleton_append]
  simp only [findEnd, hstop1, Bool.false_eq_true, if_false, hstep1]
  rw [findEnd_append_of_none _ _ _ hf1, hf2]
  simp [findEnd, hstop2]

theorem findEnd_trunc_none (fs : JsonFields) (t u : List Char)
    (ht : printChars (.obj fs) = t ++ u) (hu : u ≠ []) :
    findEnd t initScan = none := by
  have h := findEnd_print_obj fs []
  rw [List.append_nil, ht] at h
  have hlen : t.length + u.length = (printFields fs).length + 2 := by
    have : (t ++ u).length = (printChars (.obj fs)).length := by rw [ht]
    simp only [List.length_append] at this
    have hp : (printChars (Json.obj fs)).length =
        (printFields fs).length + 2 := by
      simp [printChars]
    omega
  have hu1 : 1 ≤ u.length := by
    cases u with
    | nil => exact absurd rfl hu
    | cons _ _ => simp
  exact findEnd_prefix_none t u initScan _ h (by omega)

theorem idxOfBrace_none (cs : List Char) (h : noBrace cs = true) :
    idxOfBrace cs = none := by
  induction cs with
  | nil => rfl
  | cons c cs' ih =>
    simp only [noBrace, List.all_cons, Bool.and_eq_true, bne_iff_ne] at h
    simp [idxOfBrace, h.1, ih (by simp [noBrace, h.2])]

theorem idxOfBrace_append (n rest : List Char) (h : noBrace n = true) :
    idxOfBrace (n ++ '{' :: rest) = some n.length := by
  induction n with
  | nil => simp [idxOfBrace]
  | cons c n' ih =>
    simp only [noBrace, List.all_cons, Bool.and_eq_true, bne_iff_ne] at h
    simp [idxOfBrace, h.1, ih (by simp [noBrace, h.2])]

theorem extractLoop_noise (tail : List Char) (fuel : Nat)
    (hfuel : tail.length < fuel) (h : noBrace tail = true) :
    extractLoop fuel tail = ([], []) := by
  obtain ⟨f, rfl⟩ : ∃ f, fuel = f + 1 := ⟨fuel - 1, by omega⟩
  simp [extractLoop, idxOfBrace_none tail h]

theorem extractLoop_trunc (nk t u : List Char) (fs : JsonFields)
    (fuel : Nat) (hfuel : (nk ++ t).length < fuel)
    (hk : noBrace nk = true) (ht : printChars (.obj fs) = t ++ u)
    (htn : t ≠ []) (hu : u ≠ []) :
    extractLoop fuel (nk ++ t) = ([], t) := by
  obtain ⟨f, rfl⟩ : ∃ f, fuel = f + 1 := ⟨fuel - 1, by omega⟩
  obtain ⟨t1, rfl⟩ : ∃ t1, t = '{' :: t1 := by
    cases t with
    | nil => exact absurd rfl htn
    | cons c t1 =>
      have hobj : printChars (Json.obj fs) = '{' :: (printFields fs ++ ['}']) := by
        simp [printChars]
      rw [hobj] at ht
      have : c = '{' := by
        have := congrArg (fun l => l.head?) ht
        simpa using this.symm
      exact ⟨t1, by rw [this]⟩
  have hidx := idxOfBrace_append nk t1 hk
  have hdrop : (nk ++ '{' :: t1).drop nk.length = '{' :: t1 :=
    List.drop_left nk ('{' :: t1)
  have hend := findEnd_trunc_none fs ('{' :: t1) u ht hu
  simp [extractLoop, hidx, hdrop, hend]

theorem extractLoop_step (n : List Char) (fs : JsonFields) (rest : List Char)
    (fuel : Nat) (hn : noBrace n = true) :
    extractLoop (fuel + 1) (n ++ (printChars (.obj fs) ++ rest)) =
      ((Json.obj fs) :: (extractLoop fuel rest).1,
        (extractLoop fuel rest).2) := by
  have hobj : printChars (Json.obj fs) = '{' :: (printFields fs ++ ['}']) := by
    simp [printChars]
  have hlen : (printChars (Json.obj fs)).length = (printFields fs).length + 2 := by
    simp [printChars]
  have hidx : idxOfBrace (n ++ (printChars (.obj fs) ++ rest)) = some n.length := by
    rw [hobj, List.cons_append]
    exact idxOfBrace_append n _ hn
  have hdrop : (n ++ (printChars (.obj fs) ++ rest)).drop n.length =
      printChars (.obj fs) ++ rest :=
    List.drop_left n _
  have hend : findEnd (printChars (.obj fs) ++ rest) initScan =
      some ((printFields fs).length + 1) := findEnd_print_obj fs rest
  have htake : (printChars (.obj fs) ++ rest).take ((printFields fs).length + 1 + 1) =
      printChars (.obj fs) :=
    List.take_left' (by omega)
  have hdrop2 : (printChars (.obj fs) ++ rest).drop ((printFields fs).length + 1 + 1) =
      rest :=
    List.drop_left' (by omega)
  have hparse : Json.parse (printChars (.obj fs)) = some (.obj fs) :=
    Json.parse_printChars (.obj fs)
  simp [extractLoop, hidx, hdrop, hend, htake, hdrop2, hparse]

theorem extractLoop_interleave (ps : List (List Char × Json)) :
    ∀ (fuel : Nat) (tail result : List Char),
    (interleave ps tail).length < fuel →
    (∀ p ∈ ps, noBrace p.1 = true ∧ p.2.isObj = true) →
    (∀ f, tail.length < f → extractLoop f tail = ([], result)) →
    extractLoop fuel (interleave ps tail) = (objectsOf ps, result) := by
  induction ps with
  | nil =>
    intro fuel tail result hfuel hps htail
    simpa [interleave, objectsOf] using
      htail fuel (by simpa [interleave] using hfuel)
  | cons p ps' ih =>
    intro fuel tail result hfuel hps htail
    obtain ⟨n, o⟩ := p
    obtain ⟨hn, ho⟩ := hps (n, o) (by simp)
    obtain ⟨fs, rfl⟩ : ∃ fs, o = Json.obj fs := by
      cases o with
      | obj fs => exact ⟨fs, rfl⟩
      | null => simp [Json.isObj] at ho
      | bool b => simp [Json.isObj] at ho
      | num m => simp [Json.isObj] at ho
      | str s => simp [Json.isObj] at ho
      | arr l => simp [Json.isObj] at ho
    obtain ⟨f, rfl⟩ : ∃ f, fuel = f + 1 := ⟨fuel - 1, by omega⟩
    rw [show interleave ((n, Json.obj fs) :: ps') tail =
      n ++ (printChars (Json.obj fs) ++ interleave ps' tail) by
        simp [interleave]]
    rw [extractLoop_step n fs (interleave ps' tail) f hn]
    have hlen2 : 2 ≤ (printChars (Json.obj fs)).length := by
      simp [printChars]
    have hlenf : (interleave ps' tail).length < f := by
      rw [show interleave ((n, Json.obj fs) :: ps') tail =
        n ++ (printChars (Json.obj fs) ++ interleave ps' tail) by
          simp [interleave]] at hfuel
      simp only [List.length_append] at hfuel
      omega
    rw [ih f tail result hlenf (fun q hq => hps q (by simp [hq])) htail]
    simp [objectsOf]

/-- C10: on input built from stringified JSON objects interleaved with
brace-free noise, `extractJsonObjects` returns exactly those objects in
order with empty `remaining`; and when the input additionally ends in a
truncated stringified object, it returns the complete objects and the
suffix starting at the truncated object's opening brace. -/
theorem extractJsonObjects_stringify (ps : List (List Char × Json))
    (tailNoise : List Char)
    (hps : ∀ p ∈ ps, noBrace p.1 = true ∧ p.2.isObj = true)
    (htail : noBrace tailNoise = true) :
    extractJsonObjects (interleave ps tailNoise) = (objectsOf ps, []) ∧
    (∀ (fs : JsonFields) (t u : List Char),
      printChars (Json.obj fs) = t ++ u → t ≠ [] → u ≠ [] →
      extractJsonObjects (interleave ps (tailNoise ++ t)) =
        (objectsOf ps, t)) := by
  constructor
  · simp only [extractJsonObjects]
    exact extractLoop_interleave ps _ tailNoise [] (by omega) hps
      (fun f hf => extractLoop_noise tailNoise f hf htail)
  · intro fs t u ht htn hu
    simp only [extractJsonObjects]
    exact extractLoop_interleave ps _ (tailNoise ++ t) t (by omega) hps
      (fun f hf => extractLoop_trunc tailNoise t u fs f hf htail ht htn hu)

/-- Witness for C10: noise and two stringified objects, with and
without a trailing truncated object. -/
theorem extractJsonObjects_stringify_witness :
    extractJsonObjects (interleave samplePairs sampleTailNoise) =
      (objectsOf samplePairs, []) ∧
    extractJsonObjects (interleave samplePairs
        (sampleTailNoise ++ sampleTruncKeep)) =
      (objectsOf samplePairs, sampleTruncKeep) :=
  ⟨(extractJsonObjects_stringify samplePairs sampleTailNoise
      (by decide) (by decide)).1,
    (extractJsonObjects_stringify samplePairs sampleTailNoise
      (by decide) (by decide)).2 sampleTruncFields sampleTruncKeep
      sampleTruncLost (List.take_append_drop 3 sampleTruncAll).symm
      (by decide) (by decide)⟩

end RalphTui
